import Mathlib

/-!
Verification development for the presence/session core of the
`main-project-back` repository (socket.io multiplayer presence server).

The embedding translates `src/playerManager.ts` (the `PlayerManager` class)
and the socket event wiring of `src/index.ts` into Lean:

* the three JS `Map`s of `PlayerManager` become association lists over
  `String` keys (`mget`/`mset`/`mdel` mirror `Map.get`/`Map.set`/`Map.delete`,
  keeping JS `Map` insertion-order semantics: `set` overwrites in place,
  iteration follows insertion order);
* JS numbers become `JNum` (NaN, the two infinities, or a finite rational),
  with IEEE-style comparison semantics (every comparison with NaN is false);
* the `unknown` payloads received by the socket handlers become `JValue`,
  a JSON-like value tree, so the runtime `typeof` checks of
  `validatePlayerData` / `validateMoveData` are modelled faithfully;
* `Date.now()` is passed in as an explicit `now : Nat` parameter;
* the socket handlers of `index.ts` become a step function on a `World`
  (manager state plus the list of connected socket ids), returning the
  outbound emissions with their recipient sets resolved at emission time
  (`socket.emit` = sender only, `socket.broadcast.emit` = everyone except
  the sender, `io.emit` = everyone currently connected).

Socket ids are generated by socket.io: they are opaque, unique, non-empty
strings.  The transport model therefore only ever connects a non-empty,
not-currently-connected socket id, and only delivers events for connected
sockets; this is the behaviour of the socket.io layer, not of the code
under verification.
-/

namespace PresenceCore

/-! ### Association-list model of the JS `Map`s -/

/-- `Map.get k`: first (and, with unique keys, only) binding of `k`. -/
def mget {α : Type} (m : List (String × α)) (k : String) : Option α :=
  match m with
  | [] => none
  | (k1, v) :: rest => if k1 = k then some v else mget rest k

/-- `Map.set k v`: overwrite in place if the key is present (JS `Map`
keeps the original insertion position), otherwise append. -/
def mset {α : Type} (m : List (String × α)) (k : String) (v : α) :
    List (String × α) :=
  match m with
  | [] => [(k, v)]
  | (k1, v1) :: rest =>
    if k1 = k then (k, v) :: rest else (k1, v1) :: mset rest k v

/-- `Map.delete k`: remove the binding of `k`. -/
def mdel {α : Type} (m : List (String × α)) (k : String) :
    List (String × α) :=
  m.filter (fun kv => kv.1 ≠ k)

/-- The keys of the association list are pairwise distinct (true of every
JS `Map`, and preserved by `mset`/`mdel`). -/
def KeysDistinct {α : Type} (m : List (String × α)) : Prop :=
  List.Pairwise (fun a b => a.1 ≠ b.1) m

/-! ### JS numbers -/

/-- A JavaScript `number`: NaN, one of the two infinities, or a finite
value (modelled as a rational; the presence core only compares and stores
coordinates, so rounding plays no role). -/
inductive JNum where
  | nan : JNum
  | posInfty : JNum
  | negInfty : JNum
  | fin (q : ℚ) : JNum
deriving DecidableEq

/-- IEEE `<=`: false whenever either side is NaN. -/
def JNum.jle : JNum → JNum → Bool
  | .nan, _ => false
  | _, .nan => false
  | .negInfty, _ => true
  | _, .negInfty => false
  | _, .posInfty => true
  | .posInfty, _ => false
  | .fin a, .fin b => decide (a ≤ b)

/-- IEEE `>=` (`a >= b` is `b <= a`; both are false when NaN is involved). -/
def JNum.jge (a b : JNum) : Bool := JNum.jle b a

/-- `isNaN`. -/
def JNum.isNaNCheck : JNum → Bool
  | .nan => true
  | _ => false

/-! ### JSON-like values: the `unknown` payloads of the socket handlers -/

/-- An `unknown` payload value as the handlers receive it. -/
inductive JValue where
  | null : JValue
  | undef : JValue
  | bool (b : Bool) : JValue
  | num (n : JNum) : JValue
  | str (s : String) : JValue
  | arr (elems : List JValue) : JValue
  | obj (fields : List (String × JValue)) : JValue

/-- `!data || typeof data !== 'object'` — the guard every handler starts
with.  Objects and arrays have `typeof` `'object'` and are truthy; `null`
has `typeof` `'object'` but is falsy, so it fails the guard too. -/
def JValue.isTruthyObject : JValue → Bool
  | .obj _ => true
  | .arr _ => true
  | _ => false

/-- Property access `d.k` on an `unknown` already known to be an object:
missing properties read as `undefined` (numeric-index access on arrays is
irrelevant here: the handlers only read named properties). -/
def JValue.getField : JValue → String → JValue
  | .obj fields, k => ((fields.lookup k).getD JValue.undef)
  | _, _ => JValue.undef

/-- `typeof v === 'string'`. -/
def JValue.isStr : JValue → Bool
  | .str _ => true
  | _ => false

/-- `typeof v === 'number'`. -/
def JValue.isNum : JValue → Bool
  | .num _ => true
  | _ => false

/-- The value of a property already checked to be a string (the TS code
reaches it through an unchecked `as` cast after validation). -/
def JValue.asStr : JValue → String
  | .str s => s
  | _ => ""

/-- The value of a property already checked to be a number. -/
def JValue.asNum : JValue → JNum
  | .num n => n
  | _ => JNum.nan

/-! ### `src/types.ts` -/

/-- `VALID_SHAPES` from `types.ts`. -/
def VALID_SHAPES : List String :=
  ["circle", "square", "triangle", "star", "hexagon", "diamond"]

/-- `VALID_COLORS` from `types.ts` (the nine team colors). -/
def VALID_COLORS : List String :=
  ["#ef4444", "#f97316", "#eab308", "#22c55e",
   "#3b82f6", "#8b5cf6", "#ec4899", "#06b6d4",
   "#f59e0b"]

/-- The `Player` interface of `types.ts` (the projection sent to clients,
without `socketId`/`connectedAt`). -/
structure Player where
  odUserId : String
  odUsername : String
  x : JNum
  y : JNum
  shape : String
  color : String
  completedQuests : List String
deriving DecidableEq

/-- The `PlayerWithSocket` interface of `types.ts` (the stored record). -/
structure PlayerWithSocket where
  socketId : String
  odUserId : String
  odUsername : String
  x : JNum
  y : JNum
  shape : String
  color : String
  completedQuests : List String
  connectedAt : Nat
deriving DecidableEq

/-- The `PlayerJoinInput` interface of `types.ts`. -/
structure PlayerJoinInput where
  odUserId : String
  odUsername : String
  x : JNum
  y : JNum
  shape : String
  color : String
deriving DecidableEq

/-- The `PlayerMoveEvent` interface of `types.ts` (the optional
`timestamp` field is never read by the server and is omitted). -/
structure PlayerMoveEvent where
  odUserId : String
  x : JNum
  y : JNum
deriving DecidableEq

/-- The `{ valid: boolean; error?: string }` result of the two
validation methods. -/
structure ValidationResult where
  valid : Bool
  error : Option String
deriving DecidableEq

/-! ### `src/playerManager.ts` -/

/-- `CANVAS_MAX_X` / `CANVAS_MAX_Y` / `CANVAS_MIN`. -/
def CANVAS_MAX_X : JNum := JNum.fin 2000
def CANVAS_MAX_Y : JNum := JNum.fin 2000
def CANVAS_MIN : JNum := JNum.fin 0

/-- `MOVE_RATE_LIMIT_MS`. -/
def MOVE_RATE_LIMIT_MS : Nat := 50

/-- The mutable state of the `PlayerManager` class: the three private
`Map`s. -/
structure PlayerManager where
  players : List (String × PlayerWithSocket)
  activeTeams : List (String × String)
  lastMoveTime : List (String × Nat)
deriving DecidableEq

/-- A freshly constructed `PlayerManager` (all maps empty). -/
def emptyManager : PlayerManager := ⟨[], [], []⟩

/-- `isValidPosition` (private).  `x` and `y` are already numbers at every
call site, so the `typeof` conjuncts are identically true; the remaining
conjuncts are translated literally. -/
def isValidPosition (x y : JNum) : Bool :=
  JNum.jge x CANVAS_MIN && JNum.jle x CANVAS_MAX_X &&
  JNum.jge y CANVAS_MIN && JNum.jle y CANVAS_MAX_Y &&
  !x.isNaNCheck && !y.isNaNCheck

/-- `isValidShape` (private): `typeof shape === 'string' &&
VALID_SHAPES.includes(shape)`. -/
def isValidShape (shape : JValue) : Bool :=
  match shape with
  | .str s => VALID_SHAPES.contains s
  | _ => false

/-- `isValidColor` (private): `typeof color === 'string' &&
VALID_COLORS.includes(color)`. -/
def isValidColor (color : JValue) : Bool :=
  match color with
  | .str s => VALID_COLORS.contains s
  | _ => false

/-- `getActiveTeamSocket`: `this.activeTeams.get(teamColor) || null`.
The `||` turns a falsy hit — the empty string — into `null` as well;
socket.io ids are never empty, but the translation keeps the check. -/
def getActiveTeamSocket (m : PlayerManager) (teamColor : String) :
    Option String :=
  match mget m.activeTeams teamColor with
  | some s => if s = "" then none else some s
  | none => none

/-- `addPlayer`: build the record, store it under `socketId`, and mark the
team as active.  `new Date()` becomes the ambient time `now`. -/
def addPlayer (m : PlayerManager) (socketId : String)
    (data : PlayerJoinInput) (now : Nat) :
    PlayerWithSocket × PlayerManager :=
  let player : PlayerWithSocket :=
    { socketId := socketId
      odUserId := data.odUserId
      odUsername := data.odUsername
      x := data.x
      y := data.y
      shape := data.shape
      color := data.color
      completedQuests := []
      connectedAt := now }
  (player,
   { m with
     players := mset m.players socketId player
     activeTeams := mset m.activeTeams data.color socketId })

/-- `removePlayer`: delete the player and its rate-limit entry, and clear
the team mapping only when it still points at this socket. -/
def removePlayer (m : PlayerManager) (socketId : String) :
    Option PlayerWithSocket × PlayerManager :=
  match mget m.players socketId with
  | none => (none, m)
  | some player =>
    (some player,
     { players := mdel m.players socketId
       activeTeams :=
         if mget m.activeTeams player.color = some socketId then
           mdel m.activeTeams player.color
         else m.activeTeams
       lastMoveTime := mdel m.lastMoveTime socketId })

/-- `getPlayer`. -/
def getPlayer (m : PlayerManager) (socketId : String) :
    Option PlayerWithSocket :=
  mget m.players socketId

/-- The `Player` projection built inside `getAllPlayers` and the
`player:joined` broadcast. -/
def projOf (p : PlayerWithSocket) : Player :=
  { odUserId := p.odUserId
    odUsername := p.odUsername
    x := p.x
    y := p.y
    shape := p.shape
    color := p.color
    completedQuests := p.completedQuests }

/-- `getAllPlayers(excludeSocketId?)`: projections of every stored player
except the excluded socket, in map iteration (= insertion) order. -/
def getAllPlayers (m : PlayerManager) (excludeSocketId : Option String) :
    List Player :=
  (m.players.filter (fun kv => some kv.1 ≠ excludeSocketId)).map
    (fun kv => projOf kv.2)

/-- `getPlayerCount`. -/
def getPlayerCount (m : PlayerManager) : Nat := m.players.length

/-- `updatePosition` (rate limited): no player → `false`; fewer than
`MOVE_RATE_LIMIT_MS` ms since the recorded last accepted move (absent
record reads as `0`, via `|| 0`) → `false`; invalid position → `false`;
otherwise mutate the stored player's coordinates, record `now`, and
return `true`. -/
def updatePosition (m : PlayerManager) (socketId : String)
    (data : PlayerMoveEvent) (now : Nat) : Bool × PlayerManager :=
  match mget m.players socketId with
  | none => (false, m)
  | some player =>
    let lastMove := (mget m.lastMoveTime socketId).getD 0
    if now - lastMove < MOVE_RATE_LIMIT_MS then (false, m)
    else if !isValidPosition data.x data.y then (false, m)
    else
      (true,
       { m with
         players :=
           mset m.players socketId { player with x := data.x, y := data.y }
         lastMoveTime := mset m.lastMoveTime socketId now })

/-- `completeQuest`: no player → `false`; otherwise push `questId` only
when not already present, and return `true` either way. -/
def completeQuest (m : PlayerManager) (socketId : String)
    (questId : String) : Bool × PlayerManager :=
  match mget m.players socketId with
  | none => (false, m)
  | some player =>
    if questId ∈ player.completedQuests then (true, m)
    else
      (true,
       { m with
         players :=
           mset m.players socketId
             { player with
               completedQuests := player.completedQuests ++ [questId] } })

/-- `validatePlayerData`: the join-payload validation, checks in source
order, first failure wins. -/
def validatePlayerData (data : JValue) : ValidationResult :=
  if !data.isTruthyObject then ⟨false, some "Invalid data format"⟩
  else if !(data.getField "odUserId").isStr ||
      (data.getField "odUserId").asStr.length = 0 then
    ⟨false, some "Invalid userId"⟩
  else if !(data.getField "odUsername").isStr ||
      (data.getField "odUsername").asStr.length = 0 then
    ⟨false, some "Invalid username"⟩
  else if !(data.getField "x").isNum || !(data.getField "y").isNum then
    ⟨false, some "Invalid position"⟩
  else if !isValidPosition (data.getField "x").asNum
      (data.getField "y").asNum then
    ⟨false, some "Position out of bounds"⟩
  else if !isValidShape (data.getField "shape") then
    ⟨false, some "Invalid shape"⟩
  else if !isValidColor (data.getField "color") then
    ⟨false, some "Invalid color"⟩
  else ⟨true, none⟩

/-- `validateMoveData`: the move-payload validation. -/
def validateMoveData (data : JValue) : ValidationResult :=
  if !data.isTruthyObject then ⟨false, some "Invalid data format"⟩
  else if !(data.getField "odUserId").isStr then
    ⟨false, some "Invalid userId"⟩
  else if !(data.getField "x").isNum || !(data.getField "y").isNum then
    ⟨false, some "Invalid position"⟩
  else if !isValidPosition (data.getField "x").asNum
      (data.getField "y").asNum then
    ⟨false, some "Position out of bounds"⟩
  else ⟨true, none⟩

/-- The `data as PlayerJoinInput` cast: read the fields out of the
validated payload (the defaults are unreachable once
`validatePlayerData` has succeeded). -/
def parseJoinInput (data : JValue) : PlayerJoinInput :=
  { odUserId := (data.getField "odUserId").asStr
    odUsername := (data.getField "odUsername").asStr
    x := (data.getField "x").asNum
    y := (data.getField "y").asNum
    shape := (data.getField "shape").asStr
    color := (data.getField "color").asStr }

/-- The `data as PlayerMoveEvent` cast. -/
def parseMoveEvent (data : JValue) : PlayerMoveEvent :=
  { odUserId := (data.getField "odUserId").asStr
    x := (data.getField "x").asNum
    y := (data.getField "y").asNum }

/-! ### `src/index.ts`: the socket event wiring

The handlers are modelled as a step function over a `World` (manager state
plus the list of currently connected socket ids).  Every outbound
`emit` is recorded as an `EmitRec` whose recipient list is resolved
against the set of sockets connected at the moment of emission. -/

/-- The `ServerToClientEvents` of `types.ts`, as emitted by `index.ts`. -/
inductive OutEvent where
  | playersList (players : List Player) : OutEvent
  | playerJoined (player : Player) : OutEvent
  | playerMoved (odUserId : String) (x y : JNum) : OutEvent
  | playerLeft (odUserId : String) : OutEvent
  | questCompleted (odUserId odQuestId : String) : OutEvent
  | errorMsg (message : String) : OutEvent
  | kicked (reason : String) : OutEvent
  | pong : OutEvent
deriving DecidableEq

/-- One outbound emission with its recipients resolved at emission time. -/
structure EmitRec where
  recipients : List String
  event : OutEvent
deriving DecidableEq

/-- The server state visible to the presence core: the `PlayerManager`
plus the set of live socket.io connections (`io.sockets.sockets`). -/
structure World where
  manager : PlayerManager
  connected : List String
deriving DecidableEq

/-- The inbound events the wiring reacts to.  `connect` is the socket.io
connection itself; `disconnectEv` is the transport-level close (which
socket.io routes to the `disconnect` handler); `playerDisconnectReq` is
the explicit `player:disconnect` request (which runs the same removal but
leaves the transport open). -/
inductive Event where
  | connect (sid : String) : Event
  | join (sid : String) (data : JValue) : Event
  | move (sid : String) (data : JValue) : Event
  | quest (sid : String) (data : JValue) : Event
  | pingEvent (sid : String) : Event
  | playerDisconnectReq (sid : String) : Event
  | disconnectEv (sid : String) : Event

/-- `handleDisconnect` of `index.ts`: remove the player; if one was
removed, `io.emit('player:left', …)` to everyone still connected. -/
def handleDisconnect (w : World) (sid : String) : World × List EmitRec :=
  match removePlayer w.manager sid with
  | (some player, m2) =>
    ({ w with manager := m2 }, [⟨w.connected, .playerLeft player.odUserId⟩])
  | (none, m2) => ({ w with manager := m2 }, [])

/-- The transport-level close of a socket: socket.io drops the socket from
`io.sockets.sockets` and fires the `disconnect` handler, which calls
`handleDisconnect`. -/
def closeSocket (w : World) (sid : String) : World × List EmitRec :=
  handleDisconnect
    { w with connected := w.connected.filter (fun c => c ≠ sid) } sid

/-- The `player:join` handler.  Validation failure → `error` to the sender
only.  Otherwise: if the payload's team is held by a different, still
connected socket, kick it (notice, `removePlayer`, `player:left` broadcast
to everyone, forced disconnect — which re-runs the removal as a no-op);
then `addPlayer`, send the sender the `players:list` snapshot, and
broadcast `player:joined` to everyone else. -/
def stepJoin (now : Nat) (w : World) (sid : String) (data : JValue) :
    World × List EmitRec :=
  let validation := validatePlayerData data
  if !validation.valid then
    (w, [⟨[sid], .errorMsg (validation.error.getD "Invalid player data")⟩])
  else
    let playerData := parseJoinInput data
    let kickResult : World × List EmitRec :=
      match getActiveTeamSocket w.manager playerData.color with
      | some existingSocketId =>
        if existingSocketId ≠ sid then
          if existingSocketId ∈ w.connected then
            let kickEmit : EmitRec :=
              ⟨[existingSocketId],
               .kicked "Another player from your team has connected"⟩
            let removed := removePlayer w.manager existingSocketId
            let leftEmits : List EmitRec :=
              match removed.1 with
              | some kickedPlayer =>
                [⟨w.connected, .playerLeft kickedPlayer.odUserId⟩]
              | none => []
            let closed :=
              closeSocket { w with manager := removed.2 } existingSocketId
            (closed.1, kickEmit :: leftEmits ++ closed.2)
          else (w, [])
        else (w, [])
      | none => (w, [])
    let w1 := kickResult.1
    let added := addPlayer w1.manager sid playerData now
    let w2 : World := { w1 with manager := added.2 }
    let existingPlayers := getAllPlayers added.2 (some sid)
    (w2,
     kickResult.2 ++
       [⟨[sid], .playersList existingPlayers⟩,
        ⟨w2.connected.filter (fun c => c ≠ sid),
         .playerJoined (projOf added.1)⟩])

/-- The `player:move` handler: silent on validation failure and on a
rejected update; on success broadcast `player:moved` — carrying the
payload's `odUserId` — to everyone but the sender. -/
def stepMove (now : Nat) (w : World) (sid : String) (data : JValue) :
    World × List EmitRec :=
  let validation := validateMoveData data
  if !validation.valid then (w, [])
  else
    let moveData := parseMoveEvent data
    let updated := updatePosition w.manager sid moveData now
    if !updated.1 then ({ w with manager := updated.2 }, [])
    else
      ({ w with manager := updated.2 },
       [⟨w.connected.filter (fun c => c ≠ sid),
         .playerMoved moveData.odUserId moveData.x moveData.y⟩])

/-- The `quest:complete` handler: shape-check (`typeof … === 'string'`
only), call `completeQuest`, and on success `io.emit('quest:completed')`
to everyone, sender included. -/
def stepQuest (w : World) (sid : String) (data : JValue) :
    World × List EmitRec :=
  if !data.isTruthyObject then (w, [])
  else if !(data.getField "odUserId").isStr ||
      !(data.getField "odQuestId").isStr then (w, [])
  else
    let odUserId := (data.getField "odUserId").asStr
    let odQuestId := (data.getField "odQuestId").asStr
    let completed := completeQuest w.manager sid odQuestId
    if completed.1 then
      ({ w with manager := completed.2 },
       [⟨w.connected, .questCompleted odUserId odQuestId⟩])
    else ({ w with manager := completed.2 }, [])

/-- One step of the server: dispatch a timestamped inbound event.  The
transport only ever connects a fresh, non-empty socket id and only
delivers events for connected sockets (socket.io behaviour). -/
def step (w : World) (te : Nat × Event) : World × List EmitRec :=
  match te.2 with
  | .connect sid =>
    if sid ≠ "" ∧ sid ∉ w.connected then
      ({ w with connected := w.connected ++ [sid] }, [])
    else (w, [])
  | .join sid data =>
    if sid ∈ w.connected then stepJoin te.1 w sid data else (w, [])
  | .move sid data =>
    if sid ∈ w.connected then stepMove te.1 w sid data else (w, [])
  | .quest sid data =>
    if sid ∈ w.connected then stepQuest w sid data else (w, [])
  | .pingEvent sid =>
    if sid ∈ w.connected then (w, [⟨[sid], .pong⟩]) else (w, [])
  | .playerDisconnectReq sid =>
    if sid ∈ w.connected then handleDisconnect w sid else (w, [])
  | .disconnectEv sid =>
    if sid ∈ w.connected then closeSocket w sid else (w, [])

/-- The freshly started server: no players, no connections. -/
def initialWorld : World := ⟨emptyManager, []⟩

/-- Run a whole timestamped event trace from the initial world. -/
def run (trace : List (Nat × Event)) : World :=
  List.foldl (fun w te => (step w te).1) initialWorld trace

/-! ### Invariants and derived notions -/

/-- The stored players whose `color` (team) equals `team`. -/
def teamPlayers (m : PlayerManager) (team : String) :
    List (String × PlayerWithSocket) :=
  m.players.filter (fun kv => kv.2.color = team)

/-- The inductive invariant of the server: player keys are distinct, the
empty string is never a connected socket id, and every stored player's
team maps back to its own socket in the team index, with that socket
still connected. -/
def Inv (w : World) : Prop :=
  KeysDistinct w.manager.players ∧
  "" ∉ w.connected ∧
  ∀ s p, mget w.manager.players s = some p →
    mget w.manager.activeTeams p.color = some s ∧ s ∈ w.connected

/-- Every stored player's `completedQuests` list is duplicate-free. -/
def QuestsNodup (w : World) : Prop :=
  ∀ s p, mget w.manager.players s = some p → p.completedQuests.Nodup

/-- Every stored player's position is a valid canvas position. -/
def BoundsOk (w : World) : Prop :=
  ∀ s p, mget w.manager.players s = some p → isValidPosition p.x p.y = true

/-! ### Spec-side join validation (for the refinement comparison)

The following definitions follow the words of the spec, §4.1:
"Validation rules, checked in this order, first failure wins: userId
non-empty string; username non-empty string; x,y are finite numbers
within `[0,2000]`; shape ∈ the fixed shape set; team ∈ the fixed
team-color set."  They are compared against `validatePlayerData`, which
is translated from the source. -/

/-- Spec rule 1: userId is a non-empty string. -/
def specJoinUserIdOk (d : JValue) : Bool :=
  (d.getField "odUserId").isStr &&
    decide ((d.getField "odUserId").asStr.length ≠ 0)

/-- Spec rule 2: username is a non-empty string. -/
def specJoinUsernameOk (d : JValue) : Bool :=
  (d.getField "odUsername").isStr &&
    decide ((d.getField "odUsername").asStr.length ≠ 0)

/-- Spec rule 3 helper: "a finite number within `[0,2000]`". -/
def specFiniteInRange (n : JNum) : Bool :=
  match n with
  | .fin q => decide (0 ≤ q ∧ q ≤ 2000)
  | _ => false

/-- Spec rule 3: x and y are finite numbers within `[0,2000]`. -/
def specJoinPositionOk (d : JValue) : Bool :=
  (d.getField "x").isNum && (d.getField "y").isNum &&
  specFiniteInRange (d.getField "x").asNum &&
  specFiniteInRange (d.getField "y").asNum

/-- Spec rule 4: shape belongs to the fixed shape set. -/
def specJoinShapeOk (d : JValue) : Bool :=
  (d.getField "shape").isStr &&
    VALID_SHAPES.contains (d.getField "shape").asStr

/-- Spec rule 5: team belongs to the fixed team-color set. -/
def specJoinTeamOk (d : JValue) : Bool :=
  (d.getField "color").isStr &&
    VALID_COLORS.contains (d.getField "color").asStr

/-- The spec's join validation: the five rules in the spec's order,
first failure wins; each failing rule reports the code's error string
for that rule (rule 3 owns two strings: one when x or y is not a number
at all, one when both are numbers but the position is invalid). -/
def specJoinValidate (d : JValue) : ValidationResult :=
  if !specJoinUserIdOk d then ⟨false, some "Invalid userId"⟩
  else if !specJoinUsernameOk d then ⟨false, some "Invalid username"⟩
  else if !specJoinPositionOk d then
    ⟨false,
     some (if (d.getField "x").isNum && (d.getField "y").isNum then
         "Position out of bounds"
       else "Invalid position")⟩
  else if !specJoinShapeOk d then ⟨false, some "Invalid shape"⟩
  else if !specJoinTeamOk d then ⟨false, some "Invalid color"⟩
  else ⟨true, none⟩

/-! ### Concrete payloads and traces for witnesses and counterexamples -/

/-- A well-formed join payload. -/
def mkJoinPayload (uid uname : String) (x y : ℚ) (shape color : String) :
    JValue :=
  .obj [("odUserId", .str uid), ("odUsername", .str uname),
        ("x", .num (.fin x)), ("y", .num (.fin y)),
        ("shape", .str shape), ("color", .str color)]

/-- A well-formed move payload. -/
def mkMovePayload (uid : String) (x y : ℚ) : JValue :=
  .obj [("odUserId", .str uid), ("x", .num (.fin x)), ("y", .num (.fin y))]

def annJoinRed : JValue := mkJoinPayload "u1" "Ann" 10 10 "circle" "#ef4444"
def annJoinBlue : JValue := mkJoinPayload "u1" "Ann" 20 20 "circle" "#3b82f6"
def bobJoinRed : JValue := mkJoinPayload "u2" "Bob" 20 20 "square" "#ef4444"
def bobJoinBlue : JValue :=
  mkJoinPayload "u2" "Bob" 100 100 "square" "#3b82f6"

/-- Socket `A` connects and Ann joins on it with the red team. -/
def traceAnn : List (Nat × Event) :=
  [(0, .connect "A"), (1, .join "A" annJoinRed)]

/-- Like `traceAnn`, with a second connected socket `B`. -/
def traceAnnBob : List (Nat × Event) :=
  [(0, .connect "A"), (0, .connect "B"), (1, .join "A" annJoinRed)]

/-- Socket `A` joins red and then joins again with blue: the red index
entry is left dangling. -/
def traceRejoin : List (Nat × Event) :=
  traceAnn ++ [(2, .join "A" annJoinBlue)]

/-- Two joined sockets: Ann (red) on `A`, Bob (blue) on `B`. -/
def traceTwoTeams : List (Nat × Event) :=
  [(0, .connect "A"), (1, .connect "B"), (2, .join "A" annJoinRed),
   (3, .join "B" bobJoinBlue)]

/-- A quest payload whose `odUserId` is the empty string. -/
def emptyUidQuest : JValue :=
  .obj [("odUserId", .str ""), ("odQuestId", .str "q1")]

/-- A move payload sent from Bob's socket but carrying Ann's `odUserId`. -/
def moveAsAnn : JValue := mkMovePayload "u1" 500 500

/-- The stored record produced by running `traceAnn`. -/
def annPlayer : PlayerWithSocket :=
  { socketId := "A", odUserId := "u1", odUsername := "Ann",
    x := .fin 10, y := .fin 10, shape := "circle", color := "#ef4444",
    completedQuests := [], connectedAt := 1 }

/-- The manager state after `traceAnn`. -/
def mgrAnn : PlayerManager :=
  { players := [("A", annPlayer)]
    activeTeams := [("#ef4444", "A")]
    lastMoveTime := [] }

/-- A concrete in-bounds move event. -/
def moveU1 : PlayerMoveEvent := { odUserId := "u1", x := .fin 30, y := .fin 40 }

/-- A quest payload whose `odUserId` is a number, not a string. -/
def badQuestPayload : JValue :=
  .obj [("odUserId", .num (.fin 1)), ("odQuestId", .str "q1")]

/-- A move payload whose x coordinate is out of bounds. -/
def oobMovePayload : JValue := mkMovePayload "u1" 2500 100

/-! ## Lemmas about the association-map model -/

theorem mget_mset_self {α : Type} (m : List (String × α)) (k : String)
    (v : α) : mget (mset m k v) k = some v := by
  induction m with
  | nil => simp [mget, mset]
  | cons kv rest ih =>
    obtain ⟨k1, v1⟩ := kv
    by_cases h : k1 = k
    · simp [mset, h, mget]
    · simp [mset, h, mget, ih]

theorem mget_mset_ne {α : Type} (m : List (String × α)) (k k2 : String)
    (v : α) (h : k2 ≠ k) : mget (mset m k v) k2 = mget m k2 := by
  induction m with
  | nil => simp [mget, mset, Ne.symm h]
  | cons kv rest ih =>
    obtain ⟨k1, v1⟩ := kv
    by_cases h1 : k1 = k
    · subst h1
      simp [mset, mget, Ne.symm h]
    · simp only [mset, if_neg h1, mget]
      by_cases h2 : k1 = k2
      · simp [h2]
      · simp [h2, ih]

theorem mdel_cons {α : Type} (k1 : String) (v1 : α)
    (rest : List (String × α)) (k : String) :
    mdel ((k1, v1) :: rest) k =
      if k1 = k then mdel rest k else (k1, v1) :: mdel rest k := by
  by_cases h : k1 = k <;> simp [mdel, List.filter_cons, h]

theorem mget_mdel_self {α : Type} (m : List (String × α)) (k : String) :
    mget (mdel m k) k = none := by
  induction m with
  | nil => simp [mget, mdel]
  | cons kv rest ih =>
    obtain ⟨k1, v1⟩ := kv
    rw [mdel_cons]
    by_cases h : k1 = k
    · simpa [h] using ih
    · simpa [h, mget] using ih

theorem mget_mdel_ne {α : Type} (m : List (String × α)) (k k2 : String)
    (h : k2 ≠ k) : mget (mdel m k) k2 = mget m k2 := by
  induction m with
  | nil => simp [mget, mdel]
  | cons kv rest ih =>
    obtain ⟨k1, v1⟩ := kv
    rw [mdel_cons]
    by_cases h1 : k1 = k
    · subst h1
      simpa [mget, Ne.symm h] using ih
    · rw [if_neg h1]
      simp only [mget]
      by_cases h2 : k1 = k2
      · simp [h2]
      · simp [h2, ih]

theorem mem_mset {α : Type} {m : List (String × α)} {k : String} {v : α}
    {b : String × α} (hb : b ∈ mset m k v) : b.1 = k ∨ b ∈ m := by
  induction m with
  | nil =>
    simp [mset] at hb
    subst hb
    exact Or.inl rfl
  | cons kv rest ih =>
    obtain ⟨k1, v1⟩ := kv
    by_cases h : k1 = k
    · simp only [mset, if_pos h] at hb
      rcases List.mem_cons.mp hb with hb | hb
      · exact Or.inl (by rw [hb])
      · exact Or.inr (List.mem_cons_of_mem _ hb)
    · simp only [mset, if_neg h] at hb
      rcases List.mem_cons.mp hb with hb | hb
      · exact Or.inr (by rw [hb]; exact List.mem_cons_self _ _)
      · rcases ih hb with hh | hh
        · exact Or.inl hh
        · exact Or.inr (List.mem_cons_of_mem _ hh)

theorem keysDistinct_mset {α : Type} {m : List (String × α)}
    (hm : KeysDistinct m) (k : String) (v : α) :
    KeysDistinct (mset m k v) := by
  induction m with
  | nil => simp [mset, KeysDistinct]
  | cons kv rest ih =>
    obtain ⟨k1, v1⟩ := kv
    rw [KeysDistinct, List.pairwise_cons] at hm
    by_cases h : k1 = k
    · subst h
      rw [KeysDistinct, mset, if_pos rfl, List.pairwise_cons]
      exact ⟨fun b hb => hm.1 b hb, hm.2⟩
    · rw [KeysDistinct, mset, if_neg h, List.pairwise_cons]
      refine ⟨fun b hb => ?_, ih hm.2⟩
      rcases mem_mset hb with hh | hh
      · rw [hh]; exact h
      · exact hm.1 b hh

theorem keysDistinct_mdel {α : Type} {m : List (String × α)}
    (hm : KeysDistinct m) (k : String) : KeysDistinct (mdel m k) :=
  List.Pairwise.sublist (List.filter_sublist m) hm

theorem mget_eq_some_of_mem {α : Type} {m : List (String × α)}
    (hm : KeysDistinct m) {k : String} {v : α} (hkv : (k, v) ∈ m) :
    mget m k = some v := by
  induction m with
  | nil => simp at hkv
  | cons kv rest ih =>
    obtain ⟨k1, v1⟩ := kv
    rw [KeysDistinct, List.pairwise_cons] at hm
    rcases List.mem_cons.mp hkv with hkv | hkv
    · injection hkv with hk hv
      subst hk
      subst hv
      simp [mget]
    · have hne : k1 ≠ k := by
        intro hh
        exact hm.1 (k, v) hkv (by simpa using hh)
      simp only [mget, if_neg hne]
      exact ih hm.2 hkv

theorem mem_of_mget_eq_some {α : Type} {m : List (String × α)}
    {k : String} {v : α} (h : mget m k = some v) : (k, v) ∈ m := by
  induction m with
  | nil => simp [mget] at h
  | cons kv rest ih =>
    obtain ⟨k1, v1⟩ := kv
    by_cases h1 : k1 = k
    · subst h1
      simp only [mget, if_pos, Option.some.injEq] at h
      subst h
      exact List.mem_cons_self _ _
    · simp only [mget, if_neg h1] at h
      exact List.mem_cons_of_mem _ (ih h)

theorem length_le_one_of_pairwise_key_eq {α : Type}
    {l : List (String × α)} (hne : List.Pairwise (fun a b => a.1 ≠ b.1) l)
    (heq : ∀ a ∈ l, ∀ b ∈ l, a.1 = b.1) : l.length ≤ 1 := by
  match l with
  | [] => simp
  | [a] => simp
  | a :: b :: t =>
    rw [List.pairwise_cons] at hne
    exact absurd (heq a (by simp) b (by simp)) (hne.1 b (by simp))

/-! ## Lemmas about the store operations -/

theorem removePlayer_of_none {m : PlayerManager} {sid : String}
    (h : mget m.players sid = none) : removePlayer m sid = (none, m) := by
  simp [removePlayer, h]

theorem removePlayer_of_some {m : PlayerManager} {sid : String}
    {p : PlayerWithSocket} (h : mget m.players sid = some p) :
    removePlayer m sid =
      (some p,
       { players := mdel m.players sid
         activeTeams :=
           if mget m.activeTeams p.color = some sid then
             mdel m.activeTeams p.color
           else m.activeTeams
         lastMoveTime := mdel m.lastMoveTime sid }) := by
  simp [removePlayer, h]

theorem removePlayer_players_self (m : PlayerManager) (sid : String) :
    mget (removePlayer m sid).2.players sid = none := by
  cases h : mget m.players sid with
  | none => rw [removePlayer_of_none h]; exact h
  | some p => rw [removePlayer_of_some h]; exact mget_mdel_self _ _

theorem removePlayer_players_ne (m : PlayerManager) (sid s : String)
    (hs : s ≠ sid) :
    mget (removePlayer m sid).2.players s = mget m.players s := by
  cases h : mget m.players sid with
  | none => rw [removePlayer_of_none h]
  | some p => rw [removePlayer_of_some h]; exact mget_mdel_ne _ _ _ hs

theorem removePlayer_activeTeams_stable (m : PlayerManager)
    (sid c s : String) (hs : s ≠ sid)
    (h : mget m.activeTeams c = some s) :
    mget (removePlayer m sid).2.activeTeams c = some s := by
  cases hp : mget m.players sid with
  | none => rw [removePlayer_of_none hp]; exact h
  | some player =>
    rw [removePlayer_of_some hp]
    dsimp only
    by_cases hg : mget m.activeTeams player.color = some sid
    · rw [if_pos hg]
      have hcne : c ≠ player.color := by
        intro hc
        subst hc
        rw [h] at hg
        injection hg with hg
        exact hs hg
      rw [mget_mdel_ne _ _ _ hcne]
      exact h
    · rw [if_neg hg]
      exact h

theorem removePlayer_keysDistinct {m : PlayerManager}
    (hk : KeysDistinct m.players) (sid : String) :
    KeysDistinct (removePlayer m sid).2.players := by
  cases h : mget m.players sid with
  | none => rw [removePlayer_of_none h]; exact hk
  | some p => rw [removePlayer_of_some h]; exact keysDistinct_mdel hk _

theorem getActiveTeamSocket_eq_some {m : PlayerManager} {c s : String}
    (h : getActiveTeamSocket m c = some s) :
    mget m.activeTeams c = some s ∧ s ≠ "" := by
  unfold getActiveTeamSocket at h
  split at h
  next s1 hm =>
    by_cases h1 : s1 = ""
    · rw [if_pos h1] at h
      exact absurd h (by simp)
    · rw [if_neg h1] at h
      injection h with h
      subst h
      exact ⟨hm, h1⟩
  next hm => exact absurd h (by simp)

theorem getActiveTeamSocket_ne_none {m : PlayerManager} {c s : String}
    (hm : mget m.activeTeams c = some s) (hs : s ≠ "") :
    getActiveTeamSocket m c = some s := by
  unfold getActiveTeamSocket
  rw [hm]
  exact if_neg hs

/-! ## Preservation of the main invariant -/

/-- Removing a player preserves the player-to-index direction of the
invariant, for any new connected set that keeps every survivor. -/
theorem inv_remove (m : PlayerManager) (conn conn2 : List String)
    (sid : String) (hk : KeysDistinct m.players)
    (hinv : ∀ s p, mget m.players s = some p →
      mget m.activeTeams p.color = some s ∧ s ∈ conn)
    (hkeep : ∀ s, s ∈ conn → s ≠ sid → s ∈ conn2) :
    KeysDistinct (removePlayer m sid).2.players ∧
    ∀ s p, mget (removePlayer m sid).2.players s = some p →
      mget (removePlayer m sid).2.activeTeams p.color = some s ∧
        s ∈ conn2 := by
  refine ⟨removePlayer_keysDistinct hk sid, ?_⟩
  intro s p hsp
  by_cases hs : s = sid
  · subst hs
    rw [removePlayer_players_self] at hsp
    exact absurd hsp (by simp)
  · rw [removePlayer_players_ne m sid s hs] at hsp
    obtain ⟨hidx, hc⟩ := hinv s p hsp
    exact ⟨removePlayer_activeTeams_stable m sid p.color s hs hidx,
           hkeep s hc hs⟩

/-- Adding a player preserves the invariant provided no other stored
player already has the new player's team. -/
theorem inv_add (m : PlayerManager) (conn2 : List String) (sid : String)
    (pd : PlayerJoinInput) (now : Nat) (hk : KeysDistinct m.players)
    (hinv : ∀ s p, mget m.players s = some p →
      mget m.activeTeams p.color = some s ∧ s ∈ conn2)
    (hsid : sid ∈ conn2)
    (hnoT : ∀ s p, mget m.players s = some p → s ≠ sid →
      p.color ≠ pd.color) :
    KeysDistinct (addPlayer m sid pd now).2.players ∧
    ∀ s p, mget (addPlayer m sid pd now).2.players s = some p →
      mget (addPlayer m sid pd now).2.activeTeams p.color = some s ∧
        s ∈ conn2 := by
  constructor
  · simp only [addPlayer]
    exact keysDistinct_mset hk _ _
  · intro s p hsp
    simp only [addPlayer] at hsp ⊢
    by_cases hs : s = sid
    · subst hs
      rw [mget_mset_self] at hsp
      injection hsp with hsp
      subst hsp
      exact ⟨mget_mset_self _ _ _, hsid⟩
    · rw [mget_mset_ne _ _ _ _ hs] at hsp
      obtain ⟨hidx, hc⟩ := hinv s p hsp
      have hpc : p.color ≠ pd.color := hnoT s p hsp hs
      rw [mget_mset_ne _ _ _ _ hpc]
      exact ⟨hidx, hc⟩

/-- Overwriting a stored player with a same-team record preserves the
invariant. -/
theorem inv_players_mset {m : PlayerManager} {conn : List String}
    (hk : KeysDistinct m.players)
    (hinv : ∀ s p, mget m.players s = some p →
      mget m.activeTeams p.color = some s ∧ s ∈ conn)
    {sid : String} {p : PlayerWithSocket} (p2 : PlayerWithSocket)
    (hp : mget m.players sid = some p) (hcolor : p2.color = p.color) :
    KeysDistinct (mset m.players sid p2) ∧
    ∀ s q, mget (mset m.players sid p2) s = some q →
      mget m.activeTeams q.color = some s ∧ s ∈ conn := by
  refine ⟨keysDistinct_mset hk _ _, ?_⟩
  intro s q hsq
  by_cases hs : s = sid
  · subst hs
    rw [mget_mset_self] at hsq
    injection hsq with hsq
    subst hsq
    rw [hcolor]
    exact hinv s p hp
  · rw [mget_mset_ne _ _ _ _ hs] at hsq
    exact hinv s q hsq

/-! ## Reduction lemmas for the operations and handlers -/

theorem removePlayer_fst (m : PlayerManager) (sid : String) :
    (removePlayer m sid).1 = mget m.players sid := by
  cases h : mget m.players sid with
  | none => rw [removePlayer_of_none h]
  | some p => rw [removePlayer_of_some h]

theorem removePlayer_twice (m : PlayerManager) (sid : String) :
    removePlayer (removePlayer m sid).2 sid =
      (none, (removePlayer m sid).2) :=
  removePlayer_of_none (removePlayer_players_self m sid)

theorem handleDisconnect_of_none {w : World} {sid : String}
    (h : mget w.manager.players sid = none) :
    handleDisconnect w sid = (w, []) := by
  unfold handleDisconnect
  rw [removePlayer_of_none h]

theorem handleDisconnect_of_some {w : World} {sid : String}
    {p : PlayerWithSocket} (h : mget w.manager.players sid = some p) :
    handleDisconnect w sid =
      ({ w with manager := (removePlayer w.manager sid).2 },
       [⟨w.connected, .playerLeft p.odUserId⟩]) := by
  unfold handleDisconnect
  rw [removePlayer_of_some h]

theorem closeSocket_nop {w : World} {sid : String}
    (h : mget w.manager.players sid = none) :
    closeSocket w sid =
      ({ w with connected := w.connected.filter (fun c => c ≠ sid) },
       []) := by
  unfold closeSocket
  exact handleDisconnect_of_none h

theorem updatePosition_of_no_player {m : PlayerManager} {sid : String}
    (d : PlayerMoveEvent) (now : Nat) (h : mget m.players sid = none) :
    updatePosition m sid d now = (false, m) := by
  simp [updatePosition, h]

theorem updatePosition_of_rate {m : PlayerManager} {sid : String}
    {p : PlayerWithSocket} (d : PlayerMoveEvent) (now : Nat)
    (hp : mget m.players sid = some p)
    (hr : now - (mget m.lastMoveTime sid).getD 0 < MOVE_RATE_LIMIT_MS) :
    updatePosition m sid d now = (false, m) := by
  simp [updatePosition, hp, hr]

theorem updatePosition_of_oob {m : PlayerManager} {sid : String}
    {p : PlayerWithSocket} {d : PlayerMoveEvent} {now : Nat}
    (hp : mget m.players sid = some p)
    (hr : ¬ now - (mget m.lastMoveTime sid).getD 0 < MOVE_RATE_LIMIT_MS)
    (hv : isValidPosition d.x d.y = false) :
    updatePosition m sid d now = (false, m) := by
  simp [updatePosition, hp, hr, hv]

theorem updatePosition_of_ok {m : PlayerManager} {sid : String}
    {p : PlayerWithSocket} {d : PlayerMoveEvent} {now : Nat}
    (hp : mget m.players sid = some p)
    (hr : ¬ now - (mget m.lastMoveTime sid).getD 0 < MOVE_RATE_LIMIT_MS)
    (hv : isValidPosition d.x d.y = true) :
    updatePosition m sid d now =
      (true,
       { m with
         players := mset m.players sid { p with x := d.x, y := d.y }
         lastMoveTime := mset m.lastMoveTime sid now }) := by
  simp [updatePosition, hp, hr, hv]

theorem updatePosition_false_state {m : PlayerManager} {sid : String}
    {d : PlayerMoveEvent} {now : Nat}
    (h : (updatePosition m sid d now).1 = false) :
    (updatePosition m sid d now).2 = m := by
  cases hp : mget m.players sid with
  | none => rw [updatePosition_of_no_player d now hp]
  | some p =>
    by_cases hr : now - (mget m.lastMoveTime sid).getD 0 <
        MOVE_RATE_LIMIT_MS
    · rw [updatePosition_of_rate d now hp hr]
    · cases hv : isValidPosition d.x d.y with
      | false => rw [updatePosition_of_oob hp hr hv]
      | true => rw [updatePosition_of_ok hp hr hv] at h; exact absurd h (by simp)

theorem updatePosition_true_state {m : PlayerManager} {sid : String}
    {d : PlayerMoveEvent} {now : Nat}
    (h : (updatePosition m sid d now).1 = true) :
    ∃ p, mget m.players sid = some p ∧
      ¬ now - (mget m.lastMoveTime sid).getD 0 < MOVE_RATE_LIMIT_MS ∧
      isValidPosition d.x d.y = true ∧
      (updatePosition m sid d now).2 =
        { m with
          players := mset m.players sid { p with x := d.x, y := d.y }
          lastMoveTime := mset m.lastMoveTime sid now } := by
  rcases Option.eq_none_or_eq_some (mget m.players sid) with hp | ⟨p, hp⟩
  · rw [updatePosition_of_no_player d now hp] at h
    exact absurd h (by simp)
  · by_cases hr : now - (mget m.lastMoveTime sid).getD 0 <
        MOVE_RATE_LIMIT_MS
    · rw [updatePosition_of_rate d now hp hr] at h
      exact absurd h (by simp)
    · by_cases hv : isValidPosition d.x d.y = true
      · exact ⟨p, hp, hr, hv, by rw [updatePosition_of_ok hp hr hv]⟩
      · rw [updatePosition_of_oob hp hr (Bool.eq_false_iff.mpr hv)] at h
        exact absurd h (by simp)

theorem completeQuest_of_none {m : PlayerManager} {sid : String}
    (q : String) (h : mget m.players sid = none) :
    completeQuest m sid q = (false, m) := by
  simp [completeQuest, h]

theorem completeQuest_of_mem {m : PlayerManager} {sid : String}
    {p : PlayerWithSocket} {q : String} (hp : mget m.players sid = some p)
    (hq : q ∈ p.completedQuests) : completeQuest m sid q = (true, m) := by
  simp [completeQuest, hp, hq]

theorem completeQuest_of_new {m : PlayerManager} {sid : String}
    {p : PlayerWithSocket} {q : String} (hp : mget m.players sid = some p)
    (hq : q ∉ p.completedQuests) :
    completeQuest m sid q =
      (true,
       { m with
         players := mset m.players sid
           { p with completedQuests := p.completedQuests ++ [q] } }) := by
  simp [completeQuest, hp, hq]

theorem stepJoin_invalid {now : Nat} {w : World} {sid : String}
    {data : JValue} (hval : (validatePlayerData data).valid = false) :
    stepJoin now w sid data =
      (w,
       [⟨[sid],
         .errorMsg ((validatePlayerData data).error.getD
           "Invalid player data")⟩]) := by
  simp [stepJoin, hval]

theorem stepJoin_valid_noKick {now : Nat} {w : World} {sid : String}
    {data : JValue} (hval : (validatePlayerData data).valid = true)
    (hex : getActiveTeamSocket w.manager (parseJoinInput data).color =
        none ∨
      getActiveTeamSocket w.manager (parseJoinInput data).color =
        some sid ∨
      ∃ esid,
        getActiveTeamSocket w.manager (parseJoinInput data).color =
          some esid ∧ esid ∉ w.connected) :
    stepJoin now w sid data =
      (⟨(addPlayer w.manager sid (parseJoinInput data) now).2, w.connected⟩,
       [⟨[sid],
         .playersList
           (getAllPlayers
             (addPlayer w.manager sid (parseJoinInput data) now).2
             (some sid))⟩,
        ⟨w.connected.filter (fun c => c ≠ sid),
         .playerJoined
           (projOf (addPlayer w.manager sid (parseJoinInput data) now).1)⟩]) := by
  rcases hex with hex | hex | ⟨esid, hex, hnc⟩
  · simp [stepJoin, hval, hex]
  · simp [stepJoin, hval, hex]
  · by_cases hne : esid = sid
    · subst hne
      simp [stepJoin, hval, hex]
    · simp [stepJoin, hval, hex, hne, hnc]

theorem stepJoin_valid_kick {now : Nat} {w : World} {sid : String}
    {data : JValue} {esid : String} {p : PlayerWithSocket}
    (hval : (validatePlayerData data).valid = true)
    (hex : getActiveTeamSocket w.manager (parseJoinInput data).color =
      some esid)
    (hne : esid ≠ sid) (hconn : esid ∈ w.connected)
    (hp : mget w.manager.players esid = some p) :
    stepJoin now w sid data =
      (⟨(addPlayer (removePlayer w.manager esid).2 sid
           (parseJoinInput data) now).2,
        w.connected.filter (fun c => c ≠ esid)⟩,
       [⟨[esid], .kicked "Another player from your team has connected"⟩,
        ⟨w.connected, .playerLeft p.odUserId⟩,
        ⟨[sid],
         .playersList
           (getAllPlayers
             (addPlayer (removePlayer w.manager esid).2 sid
               (parseJoinInput data) now).2 (some sid))⟩,
        ⟨(w.connected.filter (fun c => c ≠ esid)).filter
            (fun c => c ≠ sid),
         .playerJoined
           (projOf
             (addPlayer (removePlayer w.manager esid).2 sid
               (parseJoinInput data) now).1)⟩]) := by
  have hfst : (removePlayer w.manager esid).1 = some p := by
    rw [removePlayer_fst]
    exact hp
  have hclose : closeSocket
      ⟨(removePlayer w.manager esid).2, w.connected⟩ esid =
      (⟨(removePlayer w.manager esid).2,
        w.connected.filter (fun c => c ≠ esid)⟩, []) :=
    closeSocket_nop (removePlayer_players_self w.manager esid)
  simp [stepJoin, hval, hex, hne, hconn, hfst, hclose]

theorem stepJoin_valid_kick_nop {now : Nat} {w : World} {sid : String}
    {data : JValue} {esid : String}
    (hval : (validatePlayerData data).valid = true)
    (hex : getActiveTeamSocket w.manager (parseJoinInput data).color =
      some esid)
    (hne : esid ≠ sid) (hconn : esid ∈ w.connected)
    (hp : mget w.manager.players esid = none) :
    stepJoin now w sid data =
      (⟨(addPlayer w.manager sid (parseJoinInput data) now).2,
        w.connected.filter (fun c => c ≠ esid)⟩,
       [⟨[esid], .kicked "Another player from your team has connected"⟩,
        ⟨[sid],
         .playersList
           (getAllPlayers
             (addPlayer w.manager sid (parseJoinInput data) now).2
             (some sid))⟩,
        ⟨(w.connected.filter (fun c => c ≠ esid)).filter
            (fun c => c ≠ sid),
         .playerJoined
           (projOf
             (addPlayer w.manager sid (parseJoinInput data) now).1)⟩]) := by
  have hfst : (removePlayer w.manager esid).1 = none := by
    rw [removePlayer_fst]
    exact hp
  simp [stepJoin, hval, hex, hne, hconn, hfst, removePlayer_of_none hp,
    closeSocket_nop hp]

theorem stepMove_invalid {now : Nat} {w : World} {sid : String}
    {data : JValue} (hval : (validateMoveData data).valid = false) :
    stepMove now w sid data = (w, []) := by
  simp [stepMove, hval]

theorem stepMove_rejected {now : Nat} {w : World} {sid : String}
    {data : JValue} (hval : (validateMoveData data).valid = true)
    (hup : (updatePosition w.manager sid (parseMoveEvent data) now).1 =
      false) :
    stepMove now w sid data = (w, []) := by
  simp [stepMove, hval, hup, updatePosition_false_state hup]

theorem stepMove_accepted {now : Nat} {w : World} {sid : String}
    {data : JValue} (hval : (validateMoveData data).valid = true)
    (hup : (updatePosition w.manager sid (parseMoveEvent data) now).1 =
      true) :
    stepMove now w sid data =
      ({ w with
         manager :=
           (updatePosition w.manager sid (parseMoveEvent data) now).2 },
       [⟨w.connected.filter (fun c => c ≠ sid),
         .playerMoved (parseMoveEvent data).odUserId
           (parseMoveEvent data).x (parseMoveEvent data).y⟩]) := by
  simp [stepMove, hval, hup]

theorem stepQuest_bad_shape {w : World} {sid : String} {data : JValue}
    (h : data.isTruthyObject = false ∨
      (data.getField "odUserId").isStr = false ∨
      (data.getField "odQuestId").isStr = false) :
    stepQuest w sid data = (w, []) := by
  rcases h with h | h | h
  · simp [stepQuest, h]
  · by_cases h0 : data.isTruthyObject = true
    · simp [stepQuest, h0, h]
    · simp [stepQuest, Bool.eq_false_iff.mpr h0]
  · by_cases h0 : data.isTruthyObject = true
    · simp [stepQuest, h0, h]
    · simp [stepQuest, Bool.eq_false_iff.mpr h0]

theorem stepQuest_good_shape {w : World} {sid : String} {data : JValue}
    (h0 : data.isTruthyObject = true)
    (h1 : (data.getField "odUserId").isStr = true)
    (h2 : (data.getField "odQuestId").isStr = true) :
    stepQuest w sid data =
      (if (completeQuest w.manager sid
            (data.getField "odQuestId").asStr).1 then
        ({ w with
           manager :=
             (completeQuest w.manager sid
               (data.getField "odQuestId").asStr).2 },
         [⟨w.connected,
           .questCompleted (data.getField "odUserId").asStr
             (data.getField "odQuestId").asStr⟩])
      else
        ({ w with
           manager :=
             (completeQuest w.manager sid
               (data.getField "odQuestId").asStr).2 }, [])) := by
  simp [stepQuest, h0, h1, h2]

/-! ## The invariant holds in every reachable world -/

theorem handleDisconnect_world_eq (w : World) (sid : String) :
    (handleDisconnect w sid).1 =
      { w with manager := (removePlayer w.manager sid).2 } := by
  rcases Option.eq_none_or_eq_some (mget w.manager.players sid) with
    hp | ⟨p, hp⟩
  · rw [handleDisconnect_of_none hp, removePlayer_of_none hp]
  · rw [handleDisconnect_of_some hp]

theorem inv_initial : Inv initialWorld := by
  refine ⟨?_, ?_, ?_⟩
  · simp [initialWorld, emptyManager, KeysDistinct]
  · simp [initialWorld]
  · intro s p hsp
    simp [initialWorld, emptyManager, mget] at hsp

theorem inv_handleDisconnect {w : World} (sid : String) (h : Inv w) :
    Inv (handleDisconnect w sid).1 := by
  obtain ⟨hk, hemp, hinv⟩ := h
  rw [handleDisconnect_world_eq]
  obtain ⟨hk2, hinv2⟩ := inv_remove w.manager w.connected w.connected sid
    hk hinv (fun s hs _ => hs)
  exact ⟨hk2, hemp, hinv2⟩

theorem inv_closeSocket {w : World} (sid : String) (h : Inv w) :
    Inv (closeSocket w sid).1 := by
  obtain ⟨hk, hemp, hinv⟩ := h
  have hkeep : ∀ s, s ∈ w.connected → s ≠ sid →
      s ∈ w.connected.filter (fun c => c ≠ sid) := by
    intro s hs hne
    simp [List.mem_filter, hs, hne]
  obtain ⟨hk2, hinv2⟩ := inv_remove w.manager w.connected
    (w.connected.filter (fun c => c ≠ sid)) sid hk hinv hkeep
  have hemp2 : "" ∉ w.connected.filter (fun c => c ≠ sid) := fun hmem =>
    hemp (List.mem_of_mem_filter hmem)
  have heq : (closeSocket w sid).1 =
      { manager := (removePlayer w.manager sid).2
        connected := w.connected.filter (fun c => c ≠ sid) } := by
    unfold closeSocket
    rw [handleDisconnect_world_eq]
  rw [heq]
  exact ⟨hk2, hemp2, hinv2⟩

theorem inv_stepMove (now : Nat) {w : World} (sid : String)
    (data : JValue) (h : Inv w) : Inv (stepMove now w sid data).1 := by
  obtain ⟨hk, hemp, hinv⟩ := h
  by_cases hval : (validateMoveData data).valid = true
  · cases hup : (updatePosition w.manager sid (parseMoveEvent data) now).1
      with
    | false => rw [stepMove_rejected hval hup]; exact ⟨hk, hemp, hinv⟩
    | true =>
      rw [stepMove_accepted hval hup]
      obtain ⟨p, hp, hr, hv, hstate⟩ := updatePosition_true_state hup
      rw [hstate]
      obtain ⟨hk2, hinv2⟩ := inv_players_mset hk hinv
        { p with x := (parseMoveEvent data).x, y := (parseMoveEvent data).y }
        hp rfl
      exact ⟨hk2, hemp, hinv2⟩
  · rw [stepMove_invalid (Bool.eq_false_iff.mpr hval)]
    exact ⟨hk, hemp, hinv⟩

theorem inv_stepQuest {w : World} (sid : String) (data : JValue)
    (h : Inv w) : Inv (stepQuest w sid data).1 := by
  obtain ⟨hk, hemp, hinv⟩ := h
  by_cases h0 : data.isTruthyObject = true
  case neg =>
    rw [stepQuest_bad_shape (Or.inl (Bool.eq_false_iff.mpr h0))]
    exact ⟨hk, hemp, hinv⟩
  by_cases h1 : (data.getField "odUserId").isStr = true
  case neg =>
    rw [stepQuest_bad_shape (Or.inr (Or.inl (Bool.eq_false_iff.mpr h1)))]
    exact ⟨hk, hemp, hinv⟩
  by_cases h2 : (data.getField "odQuestId").isStr = true
  case neg =>
    rw [stepQuest_bad_shape
      (Or.inr (Or.inr (Bool.eq_false_iff.mpr h2)))]
    exact ⟨hk, hemp, hinv⟩
  rw [stepQuest_good_shape h0 h1 h2]
  rcases Option.eq_none_or_eq_some (mget w.manager.players sid) with
    hp | ⟨p, hp⟩
  · rw [completeQuest_of_none _ hp]
    exact ⟨hk, hemp, hinv⟩
  · by_cases hq : (data.getField "odQuestId").asStr ∈ p.completedQuests
    · rw [completeQuest_of_mem hp hq]
      exact ⟨hk, hemp, hinv⟩
    · rw [completeQuest_of_new hp hq]
      obtain ⟨hk2, hinv2⟩ := inv_players_mset hk hinv
        { p with completedQuests :=
            p.completedQuests ++ [(data.getField "odQuestId").asStr] }
        hp rfl
      exact ⟨hk2, hemp, hinv2⟩

theorem inv_stepJoin (now : Nat) {w : World} {sid : String}
    (data : JValue) (hmem : sid ∈ w.connected) (h : Inv w) :
    Inv (stepJoin now w sid data).1 := by
  obtain ⟨hk, hemp, hinv⟩ := h
  by_cases hval : (validatePlayerData data).valid = true
  case neg =>
    rw [stepJoin_invalid (Bool.eq_false_iff.mpr hval)]
    exact ⟨hk, hemp, hinv⟩
  cases hopt : getActiveTeamSocket w.manager (parseJoinInput data).color
    with
  | none =>
    rw [stepJoin_valid_noKick hval (Or.inl hopt)]
    have hnoT : ∀ s p, mget w.manager.players s = some p → s ≠ sid →
        p.color ≠ (parseJoinInput data).color := by
      intro s p hsp _ hc
      obtain ⟨hidx, hcn⟩ := hinv s p hsp
      rw [hc] at hidx
      have hsne : s ≠ "" := fun he => hemp (he ▸ hcn)
      rw [getActiveTeamSocket_ne_none hidx hsne] at hopt
      cases hopt
    obtain ⟨hk2, hinv2⟩ := inv_add w.manager w.connected sid
      (parseJoinInput data) now hk hinv hmem hnoT
    exact ⟨hk2, hemp, hinv2⟩
  | some esid =>
    obtain ⟨hraw, hesne⟩ := getActiveTeamSocket_eq_some hopt
    by_cases hne : esid = sid
    · subst hne
      rw [stepJoin_valid_noKick hval (Or.inr (Or.inl hopt))]
      have hnoT : ∀ s p, mget w.manager.players s = some p → s ≠ esid →
          p.color ≠ (parseJoinInput data).color := by
        intro s p hsp hs hc
        obtain ⟨hidx, _⟩ := hinv s p hsp
        rw [hc, hraw] at hidx
        injection hidx with hidx
        exact hs hidx.symm
      obtain ⟨hk2, hinv2⟩ := inv_add w.manager w.connected esid
        (parseJoinInput data) now hk hinv hmem hnoT
      exact ⟨hk2, hemp, hinv2⟩
    · by_cases hconn : esid ∈ w.connected
      · have hkeep : ∀ s, s ∈ w.connected → s ≠ esid →
            s ∈ w.connected.filter (fun c => c ≠ esid) := by
          intro s hs hne2
          simp [List.mem_filter, hs, hne2]
        have hempf : "" ∉ w.connected.filter (fun c => c ≠ esid) :=
          fun hm => hemp (List.mem_of_mem_filter hm)
        have hsidf : sid ∈ w.connected.filter (fun c => c ≠ esid) :=
          hkeep sid hmem (fun he => hne he.symm)
        rcases Option.eq_none_or_eq_some (mget w.manager.players esid)
          with hp | ⟨p, hp⟩
        · rw [stepJoin_valid_kick_nop hval hopt hne hconn hp]
          have hinvf : ∀ s q, mget w.manager.players s = some q →
              mget w.manager.activeTeams q.color = some s ∧
                s ∈ w.connected.filter (fun c => c ≠ esid) := by
            intro s q hsq
            obtain ⟨hidx, hcn⟩ := hinv s q hsq
            have hsne : s ≠ esid := by
              intro he
              subst he
              rw [hp] at hsq
              cases hsq
            exact ⟨hidx, hkeep s hcn hsne⟩
          have hnoT : ∀ s q, mget w.manager.players s = some q →
              s ≠ sid → q.color ≠ (parseJoinInput data).color := by
            intro s q hsq _ hc
            obtain ⟨hidx, _⟩ := hinv s q hsq
            rw [hc, hraw] at hidx
            injection hidx with hidx
            subst hidx
            rw [hp] at hsq
            cases hsq
          obtain ⟨hk2, hinv2⟩ := inv_add w.manager
            (w.connected.filter (fun c => c ≠ esid)) sid
            (parseJoinInput data) now hk hinvf hsidf hnoT
          exact ⟨hk2, hempf, hinv2⟩
        · rw [stepJoin_valid_kick hval hopt hne hconn hp]
          obtain ⟨hk2, hinv2⟩ := inv_remove w.manager w.connected
            (w.connected.filter (fun c => c ≠ esid)) esid hk hinv hkeep
          have hnoT : ∀ s q,
              mget (removePlayer w.manager esid).2.players s = some q →
              s ≠ sid → q.color ≠ (parseJoinInput data).color := by
            intro s q hsq _ hc
            have hsne : s ≠ esid := by
              intro he
              subst he
              rw [removePlayer_players_self] at hsq
              cases hsq
            rw [removePlayer_players_ne _ _ _ hsne] at hsq
            obtain ⟨hidx, _⟩ := hinv s q hsq
            rw [hc, hraw] at hidx
            injection hidx with hidx
            exact hsne hidx.symm
          obtain ⟨hk3, hinv3⟩ := inv_add (removePlayer w.manager esid).2
            (w.connected.filter (fun c => c ≠ esid)) sid
            (parseJoinInput data) now hk2 hinv2 hsidf hnoT
          exact ⟨hk3, hempf, hinv3⟩
      · rw [stepJoin_valid_noKick hval (Or.inr (Or.inr ⟨esid, hopt, hconn⟩))]
        have hnoT : ∀ s p, mget w.manager.players s = some p → s ≠ sid →
            p.color ≠ (parseJoinInput data).color := by
          intro s p hsp _ hc
          obtain ⟨hidx, hcn⟩ := hinv s p hsp
          rw [hc, hraw] at hidx
          injection hidx with hidx
          subst hidx
          exact hconn hcn
        obtain ⟨hk2, hinv2⟩ := inv_add w.manager w.connected sid
          (parseJoinInput data) now hk hinv hmem hnoT
        exact ⟨hk2, hemp, hinv2⟩

theorem inv_step (w : World) (te : Nat × Event) (h : Inv w) :
    Inv (step w te).1 := by
  obtain ⟨now, ev⟩ := te
  cases ev with
  | connect sid =>
    by_cases hc : sid ≠ "" ∧ sid ∉ w.connected
    · obtain ⟨hk, hemp, hinv⟩ := h
      simp only [step, if_pos hc]
      refine ⟨hk, ?_, ?_⟩
      · intro hm
        rcases List.mem_append.mp hm with hm | hm
        · exact hemp hm
        · rw [List.mem_singleton] at hm
          exact hc.1 hm.symm
      · intro s p hsp
        obtain ⟨hidx, hcn⟩ := hinv s p hsp
        exact ⟨hidx, List.mem_append.mpr (Or.inl hcn)⟩
    · simp only [step, if_neg hc]
      exact h
  | join sid data =>
    by_cases hmem : sid ∈ w.connected
    · simp only [step, if_pos hmem]
      exact inv_stepJoin now data hmem h
    · simp only [step, if_neg hmem]
      exact h
  | move sid data =>
    by_cases hmem : sid ∈ w.connected
    · simp only [step, if_pos hmem]
      exact inv_stepMove now sid data h
    · simp only [step, if_neg hmem]
      exact h
  | quest sid data =>
    by_cases hmem : sid ∈ w.connected
    · simp only [step, if_pos hmem]
      exact inv_stepQuest sid data h
    · simp only [step, if_neg hmem]
      exact h
  | pingEvent sid =>
    by_cases hmem : sid ∈ w.connected
    · simp only [step, if_pos hmem]
      exact h
    · simp only [step, if_neg hmem]
      exact h
  | playerDisconnectReq sid =>
    by_cases hmem : sid ∈ w.connected
    · simp only [step, if_pos hmem]
      exact inv_handleDisconnect sid h
    · simp only [step, if_neg hmem]
      exact h
  | disconnectEv sid =>
    by_cases hmem : sid ∈ w.connected
    · simp only [step, if_pos hmem]
      exact inv_closeSocket sid h
    · simp only [step, if_neg hmem]
      exact h

theorem inv_run (trace : List (Nat × Event)) : Inv (run trace) := by
  suffices h : ∀ w, Inv w →
      Inv (List.foldl (fun w te => (step w te).1) w trace) from
    h initialWorld inv_initial
  induction trace with
  | nil => intro w hw; exact hw
  | cons te rest ih =>
    intro w hw
    exact ih _ (inv_step w te hw)

/-! ## Validation: code-side checks versus the spec's rules -/

theorem isValidPosition_eq_finite (x y : JNum) :
    isValidPosition x y = (specFiniteInRange x && specFiniteInRange y) := by
  cases x <;> cases y <;>
    simp [isValidPosition, specFiniteInRange, JNum.jge, JNum.jle,
      JNum.isNaNCheck, CANVAS_MIN, CANVAS_MAX_X, CANVAS_MAX_Y,
      Bool.decide_and, Bool.and_assoc]

theorem isValidShape_eq (v : JValue) :
    isValidShape v = (v.isStr && VALID_SHAPES.contains v.asStr) := by
  cases v <;> simp [isValidShape, JValue.isStr, JValue.asStr]

theorem isValidColor_eq (v : JValue) :
    isValidColor v = (v.isStr && VALID_COLORS.contains v.asStr) := by
  cases v <;> simp [isValidColor, JValue.isStr, JValue.asStr]

theorem specJoinPositionOk_eq (d : JValue) :
    specJoinPositionOk d =
      ((d.getField "x").isNum && (d.getField "y").isNum &&
        isValidPosition (d.getField "x").asNum (d.getField "y").asNum) := by
  rw [isValidPosition_eq_finite]
  simp [specJoinPositionOk, Bool.and_assoc]

theorem validate_nonobj {d : JValue} (h : d.isTruthyObject = false) :
    validatePlayerData d = ⟨false, some "Invalid data format"⟩ := by
  simp [validatePlayerData, h]

/-- The source's join validation coincides with the spec's ordered rules
on every object payload. -/
theorem validate_eq_spec (fs : List (String × JValue)) :
    validatePlayerData (.obj fs) = specJoinValidate (.obj fs) := by
  have hobj : (JValue.obj fs).isTruthyObject = true := rfl
  by_cases a1 : ((JValue.obj fs).getField "odUserId").isStr = true
  case neg =>
    have b1 := Bool.eq_false_iff.mpr a1
    simp [validatePlayerData, specJoinValidate, specJoinUserIdOk, hobj,
      b1]
  by_cases a2 : ((JValue.obj fs).getField "odUserId").asStr.length = 0
  case pos =>
    simp [validatePlayerData, specJoinValidate, specJoinUserIdOk, hobj,
      a1, a2]
  by_cases a3 : ((JValue.obj fs).getField "odUsername").isStr = true
  case neg =>
    have b3 := Bool.eq_false_iff.mpr a3
    simp [validatePlayerData, specJoinValidate, specJoinUserIdOk,
      specJoinUsernameOk, hobj, a1, a2, b3]
  by_cases a4 : ((JValue.obj fs).getField "odUsername").asStr.length = 0
  case pos =>
    simp [validatePlayerData, specJoinValidate, specJoinUserIdOk,
      specJoinUsernameOk, hobj, a1, a2, a3, a4]
  by_cases a5 : ((JValue.obj fs).getField "x").isNum = true
  case neg =>
    have b5 := Bool.eq_false_iff.mpr a5
    have p5 : specJoinPositionOk (.obj fs) = false := by
      rw [specJoinPositionOk_eq]
      simp [b5]
    simp [validatePlayerData, specJoinValidate, specJoinUserIdOk,
      specJoinUsernameOk, hobj, a1, a2, a3, a4, b5, p5]
  by_cases a6 : ((JValue.obj fs).getField "y").isNum = true
  case neg =>
    have b6 := Bool.eq_false_iff.mpr a6
    have p6 : specJoinPositionOk (.obj fs) = false := by
      rw [specJoinPositionOk_eq]
      simp [b6]
    simp [validatePlayerData, specJoinValidate, specJoinUserIdOk,
      specJoinUsernameOk, hobj, a1, a2, a3, a4, a5, b6, p6]
  by_cases a7 : isValidPosition ((JValue.obj fs).getField "x").asNum
      ((JValue.obj fs).getField "y").asNum = true
  case neg =>
    have b7 := Bool.eq_false_iff.mpr a7
    have p7 : specJoinPositionOk (.obj fs) = false := by
      rw [specJoinPositionOk_eq]
      simp [b7]
    simp [validatePlayerData, specJoinValidate, specJoinUserIdOk,
      specJoinUsernameOk, hobj, a1, a2, a3, a4, a5, a6, b7, p7]
  have p7 : specJoinPositionOk (.obj fs) = true := by
    rw [specJoinPositionOk_eq]
    simp [a5, a6, a7]
  by_cases a8 : isValidShape ((JValue.obj fs).getField "shape") = true
  case neg =>
    have b8 := Bool.eq_false_iff.mpr a8
    have s8 : specJoinShapeOk (.obj fs) = false := by
      unfold specJoinShapeOk
      rw [← isValidShape_eq]
      exact b8
    simp [validatePlayerData, specJoinValidate, specJoinUserIdOk,
      specJoinUsernameOk, hobj, a1, a2, a3, a4, a5, a6, a7, p7, b8, s8]
  have s8 : specJoinShapeOk (.obj fs) = true := by
    unfold specJoinShapeOk
    rw [← isValidShape_eq]
    exact a8
  by_cases a9 : isValidColor ((JValue.obj fs).getField "color") = true
  case neg =>
    have b9 := Bool.eq_false_iff.mpr a9
    have s9 : specJoinTeamOk (.obj fs) = false := by
      unfold specJoinTeamOk
      rw [← isValidColor_eq]
      exact b9
    simp [validatePlayerData, specJoinValidate, specJoinUserIdOk,
      specJoinUsernameOk, hobj, a1, a2, a3, a4, a5, a6, a7, p7, a8, s8,
      b9, s9]
  have s9 : specJoinTeamOk (.obj fs) = true := by
    unfold specJoinTeamOk
    rw [← isValidColor_eq]
    exact a9
  simp [validatePlayerData, specJoinValidate, specJoinUserIdOk,
    specJoinUsernameOk, hobj, a1, a2, a3, a4, a5, a6, a7, p7, a8, s8,
    a9, s9]

/-- A payload that passes the join validation has an in-bounds
position. -/
theorem validatePlayerData_position {d : JValue}
    (h : (validatePlayerData d).valid = true) :
    isValidPosition (d.getField "x").asNum (d.getField "y").asNum =
      true := by
  by_cases hv : isValidPosition (d.getField "x").asNum
      (d.getField "y").asNum = true
  · exact hv
  · exfalso
    simp [validatePlayerData, Bool.eq_false_iff.mpr hv,
      apply_ite ValidationResult.valid] at h

/-- A payload that passes the move validation has an in-bounds
position. -/
theorem validateMoveData_position {d : JValue}
    (h : (validateMoveData d).valid = true) :
    isValidPosition (d.getField "x").asNum (d.getField "y").asNum =
      true := by
  by_cases hv : isValidPosition (d.getField "x").asNum
      (d.getField "y").asNum = true
  · exact hv
  · exfalso
    simp [validateMoveData, Bool.eq_false_iff.mpr hv,
      apply_ite ValidationResult.valid] at h

/-! ## Bounds and quest-uniqueness hold in every reachable world -/

theorem mget_mset_cases {α : Type} {l : List (String × α)} {k s : String}
    {v p : α} (h : mget (mset l k v) s = some p) :
    (s = k ∧ p = v) ∨ (s ≠ k ∧ mget l s = some p) := by
  by_cases hs : s = k
  · subst hs
    rw [mget_mset_self] at h
    injection h with h
    exact Or.inl ⟨rfl, h.symm⟩
  · rw [mget_mset_ne _ _ _ _ hs] at h
    exact Or.inr ⟨hs, h⟩

theorem removePlayer_players_subset {m : PlayerManager} {sid s : String}
    {p : PlayerWithSocket}
    (h : mget (removePlayer m sid).2.players s = some p) :
    mget m.players s = some p := by
  by_cases hs : s = sid
  · subst hs
    rw [removePlayer_players_self] at h
    cases h
  · rw [removePlayer_players_ne _ _ _ hs] at h
    exact h

theorem state_after_add {base : PlayerManager} {sid : String}
    {pd : PlayerJoinInput} {now : Nat}
    (hbase : ∀ s p, mget base.players s = some p →
      isValidPosition p.x p.y = true ∧ p.completedQuests.Nodup)
    (hpos : isValidPosition pd.x pd.y = true) :
    ∀ s p, mget (addPlayer base sid pd now).2.players s = some p →
      isValidPosition p.x p.y = true ∧ p.completedQuests.Nodup := by
  intro s p hsp
  simp only [addPlayer] at hsp
  rcases mget_mset_cases hsp with ⟨_, hp⟩ | ⟨_, hp⟩
  · subst hp
    exact ⟨hpos, List.nodup_nil⟩
  · exact hbase s p hp

theorem state_stepJoin (now : Nat) (w : World) (sid : String)
    (data : JValue) (h : BoundsOk w ∧ QuestsNodup w) :
    BoundsOk (stepJoin now w sid data).1 ∧
      QuestsNodup (stepJoin now w sid data).1 := by
  obtain ⟨hb, hq⟩ := h
  by_cases hval : (validatePlayerData data).valid = true
  case neg =>
    rw [stepJoin_invalid (Bool.eq_false_iff.mpr hval)]
    exact ⟨hb, hq⟩
  have hpos : isValidPosition (parseJoinInput data).x
      (parseJoinInput data).y = true := validatePlayerData_position hval
  have hbase : ∀ s p, mget w.manager.players s = some p →
      isValidPosition p.x p.y = true ∧ p.completedQuests.Nodup :=
    fun s p hp => ⟨hb s p hp, hq s p hp⟩
  cases hopt : getActiveTeamSocket w.manager (parseJoinInput data).color
    with
  | none =>
    rw [stepJoin_valid_noKick hval (Or.inl hopt)]
    exact ⟨fun s p hp => (state_after_add hbase hpos s p hp).1,
           fun s p hp => (state_after_add hbase hpos s p hp).2⟩
  | some esid =>
    by_cases hne : esid = sid
    · subst hne
      rw [stepJoin_valid_noKick hval (Or.inr (Or.inl hopt))]
      exact ⟨fun s p hp => (state_after_add hbase hpos s p hp).1,
             fun s p hp => (state_after_add hbase hpos s p hp).2⟩
    · by_cases hconn : esid ∈ w.connected
      · rcases Option.eq_none_or_eq_some (mget w.manager.players esid)
          with hp0 | ⟨p0, hp0⟩
        · rw [stepJoin_valid_kick_nop hval hopt hne hconn hp0]
          exact ⟨fun s p hp => (state_after_add hbase hpos s p hp).1,
                 fun s p hp => (state_after_add hbase hpos s p hp).2⟩
        · rw [stepJoin_valid_kick hval hopt hne hconn hp0]
          have hbase2 : ∀ s p,
              mget (removePlayer w.manager esid).2.players s = some p →
              isValidPosition p.x p.y = true ∧
                p.completedQuests.Nodup :=
            fun s p hp => hbase s p (removePlayer_players_subset hp)
          exact ⟨fun s p hp => (state_after_add hbase2 hpos s p hp).1,
                 fun s p hp => (state_after_add hbase2 hpos s p hp).2⟩
      · rw [stepJoin_valid_noKick hval
          (Or.inr (Or.inr ⟨esid, hopt, hconn⟩))]
        exact ⟨fun s p hp => (state_after_add hbase hpos s p hp).1,
               fun s p hp => (state_after_add hbase hpos s p hp).2⟩

theorem state_stepMove (now : Nat) (w : World) (sid : String)
    (data : JValue) (h : BoundsOk w ∧ QuestsNodup w) :
    BoundsOk (stepMove now w sid data).1 ∧
      QuestsNodup (stepMove now w sid data).1 := by
  obtain ⟨hb, hq⟩ := h
  by_cases hval : (validateMoveData data).valid = true
  case neg =>
    rw [stepMove_invalid (Bool.eq_false_iff.mpr hval)]
    exact ⟨hb, hq⟩
  cases hup : (updatePosition w.manager sid (parseMoveEvent data) now).1
    with
  | false =>
    rw [stepMove_rejected hval hup]
    exact ⟨hb, hq⟩
  | true =>
    rw [stepMove_accepted hval hup]
    obtain ⟨p, hp, _, hv, hstate⟩ := updatePosition_true_state hup
    rw [hstate]
    constructor
    · intro s q hsq
      rcases mget_mset_cases hsq with ⟨_, hq2⟩ | ⟨_, hq2⟩
      · subst hq2
        exact hv
      · exact hb s q hq2
    · intro s q hsq
      rcases mget_mset_cases hsq with ⟨_, hq2⟩ | ⟨_, hq2⟩
      · subst hq2
        exact hq sid p hp
      · exact hq s q hq2

theorem state_stepQuest (w : World) (sid : String) (data : JValue)
    (h : BoundsOk w ∧ QuestsNodup w) :
    BoundsOk (stepQuest w sid data).1 ∧
      QuestsNodup (stepQuest w sid data).1 := by
  obtain ⟨hb, hq⟩ := h
  by_cases h0 : data.isTruthyObject = true
  case neg =>
    rw [stepQuest_bad_shape (Or.inl (Bool.eq_false_iff.mpr h0))]
    exact ⟨hb, hq⟩
  by_cases h1 : (data.getField "odUserId").isStr = true
  case neg =>
    rw [stepQuest_bad_shape (Or.inr (Or.inl (Bool.eq_false_iff.mpr h1)))]
    exact ⟨hb, hq⟩
  by_cases h2 : (data.getField "odQuestId").isStr = true
  case neg =>
    rw [stepQuest_bad_shape
      (Or.inr (Or.inr (Bool.eq_false_iff.mpr h2)))]
    exact ⟨hb, hq⟩
  rw [stepQuest_good_shape h0 h1 h2]
  rcases Option.eq_none_or_eq_some (mget w.manager.players sid) with
    hp | ⟨p, hp⟩
  · rw [completeQuest_of_none _ hp]
    exact ⟨hb, hq⟩
  · by_cases hqm : (data.getField "odQuestId").asStr ∈ p.completedQuests
    · rw [completeQuest_of_mem hp hqm]
      exact ⟨hb, hq⟩
    · rw [completeQuest_of_new hp hqm]
      have hnodup : (p.completedQuests ++
          [(data.getField "odQuestId").asStr]).Nodup := by
        simp [List.nodup_append, hq sid p hp, hqm]
      constructor
      · intro s q hsq
        rcases mget_mset_cases hsq with ⟨_, hq2⟩ | ⟨_, hq2⟩
        · subst hq2
          exact hb sid p hp
        · exact hb s q hq2
      · intro s q hsq
        rcases mget_mset_cases hsq with ⟨_, hq2⟩ | ⟨_, hq2⟩
        · subst hq2
          exact hnodup
        · exact hq s q hq2

theorem state_step (w : World) (te : Nat × Event)
    (h : BoundsOk w ∧ QuestsNodup w) :
    BoundsOk (step w te).1 ∧ QuestsNodup (step w te).1 := by
  obtain ⟨hb, hq⟩ := h
  obtain ⟨now, ev⟩ := te
  cases ev with
  | connect sid =>
    by_cases hc : sid ≠ "" ∧ sid ∉ w.connected
    · simp only [step, if_pos hc]
      exact ⟨hb, hq⟩
    · simp only [step, if_neg hc]
      exact ⟨hb, hq⟩
  | join sid data =>
    by_cases hmem : sid ∈ w.connected
    · simp only [step, if_pos hmem]
      exact state_stepJoin now w sid data ⟨hb, hq⟩
    · simp only [step, if_neg hmem]
      exact ⟨hb, hq⟩
  | move sid data =>
    by_cases hmem : sid ∈ w.connected
    · simp only [step, if_pos hmem]
      exact state_stepMove now w sid data ⟨hb, hq⟩
    · simp only [step, if_neg hmem]
      exact ⟨hb, hq⟩
  | quest sid data =>
    by_cases hmem : sid ∈ w.connected
    · simp only [step, if_pos hmem]
      exact state_stepQuest w sid data ⟨hb, hq⟩
    · simp only [step, if_neg hmem]
      exact ⟨hb, hq⟩
  | pingEvent sid =>
    by_cases hmem : sid ∈ w.connected
    · simp only [step, if_pos hmem]
      exact ⟨hb, hq⟩
    · simp only [step, if_neg hmem]
      exact ⟨hb, hq⟩
  | playerDisconnectReq sid =>
    by_cases hmem : sid ∈ w.connected
    · simp only [step, if_pos hmem]
      rw [handleDisconnect_world_eq]
      exact ⟨fun s p hp => hb s p (removePlayer_players_subset hp),
             fun s p hp => hq s p (removePlayer_players_subset hp)⟩
    · simp only [step, if_neg hmem]
      exact ⟨hb, hq⟩
  | disconnectEv sid =>
    by_cases hmem : sid ∈ w.connected
    · simp only [step, if_pos hmem]
      unfold closeSocket
      rw [handleDisconnect_world_eq]
      exact ⟨fun s p hp => hb s p (removePlayer_players_subset hp),
             fun s p hp => hq s p (removePlayer_players_subset hp)⟩
    · simp only [step, if_neg hmem]
      exact ⟨hb, hq⟩

theorem state_run (trace : List (Nat × Event)) :
    BoundsOk (run trace) ∧ QuestsNodup (run trace) := by
  suffices h : ∀ w, BoundsOk w ∧ QuestsNodup w →
      BoundsOk (List.foldl (fun w te => (step w te).1) w trace) ∧
      QuestsNodup (List.foldl (fun w te => (step w te).1) w trace) from
    h initialWorld
      ⟨fun s p hp => by simp [initialWorld, emptyManager, mget] at hp,
       fun s p hp => by simp [initialWorld, emptyManager, mget] at hp⟩
  induction trace with
  | nil => intro w hw; exact hw
  | cons te rest ih =>
    intro w hw
    exact ih _ (state_step w te hw)

/-! ## The claims -/

/-- Claim C1: team exclusivity — for every team color, after every
sequence of events processed by the session handler (join, move,
quest-complete, disconnect, and the rest), at most one stored player
record has that team. -/
theorem c1_team_exclusivity (trace : List (Nat × Event)) (team : String) :
    (teamPlayers (run trace).manager team).length ≤ 1 := by
  obtain ⟨hk, _, hinv⟩ := inv_run trace
  have hpw : List.Pairwise (fun a b => a.1 ≠ b.1)
      (teamPlayers (run trace).manager team) :=
    List.Pairwise.sublist (List.filter_sublist _) hk
  apply length_le_one_of_pairwise_key_eq hpw
  intro a ha b hb
  have hma := List.mem_filter.mp ha
  have hmb := List.mem_filter.mp hb
  have hca : a.2.color = team := by simpa using hma.2
  have hcb : b.2.color = team := by simpa using hmb.2
  have hga : mget (run trace).manager.players a.1 = some a.2 :=
    mget_eq_some_of_mem hk hma.1
  have hgb : mget (run trace).manager.players b.1 = some b.2 :=
    mget_eq_some_of_mem hk hmb.1
  have hia := (hinv a.1 a.2 hga).1
  have hib := (hinv b.1 b.2 hgb).1
  rw [hca] at hia
  rw [hcb] at hib
  rw [hia] at hib
  injection hib

/-- Claim C3, counterexample: after socket `A` joins with the red team
and then joins again with the blue team, the team index still maps red
to `A` while `A`'s stored player has the blue team — a dangling index
entry survives the operation, refuting the claimed two-way
consistency. -/
theorem c3_counterexample :
    mget (run traceRejoin).manager.activeTeams "#ef4444" = some "A" ∧
    (mget (run traceRejoin).manager.players "A").map
      PlayerWithSocket.color = some "#3b82f6" ∧
    ("#3b82f6" : String) ≠ "#ef4444" := by
  decide

/-- Claim C3, amended: after every handler-processed event, every stored
player's team maps back to that player's own connection in the team
index (the converse claimed by C3 fails: an index entry may dangle, in
particular after a second join on an already-joined connection that
switches team). -/
theorem c3_forward_consistency (trace : List (Nat × Event)) (s : String)
    (p : PlayerWithSocket)
    (hp : mget (run trace).manager.players s = some p) :
    mget (run trace).manager.activeTeams p.color = some s :=
  ((inv_run trace).2.2 s p hp).1

theorem c3_forward_consistency_witness :
    mget (run traceAnn).manager.activeTeams annPlayer.color = some "A" :=
  c3_forward_consistency traceAnn "A" annPlayer (by decide)

/-- Claim C6: quest idempotence — `completeQuest` fails only for a
connection with no stored player; with a stored player it succeeds and
adds the quest id only when absent, a double call leaves exactly one
occurrence with both calls succeeding, and `completedQuests` never
contains duplicates in any reachable state. -/
theorem c6_quest_idempotence :
    (∀ (m : PlayerManager) (c q : String), mget m.players c = none →
      completeQuest m c q = (false, m)) ∧
    (∀ (m : PlayerManager) (c q : String) (p : PlayerWithSocket),
      mget m.players c = some p →
      (completeQuest m c q).1 = true ∧
      ∃ p2, mget (completeQuest m c q).2.players c = some p2 ∧
        p2.completedQuests =
          (if q ∈ p.completedQuests then p.completedQuests
           else p.completedQuests ++ [q])) ∧
    (∀ (m : PlayerManager) (c q : String) (p : PlayerWithSocket),
      mget m.players c = some p → p.completedQuests.Nodup →
      (completeQuest m c q).1 = true ∧
      (completeQuest (completeQuest m c q).2 c q).1 = true ∧
      ∃ p2, mget (completeQuest (completeQuest m c q).2 c q).2.players c
          = some p2 ∧ p2.completedQuests.count q = 1) ∧
    (∀ (trace : List (Nat × Event)) (s : String) (p : PlayerWithSocket),
      mget (run trace).manager.players s = some p →
      p.completedQuests.Nodup) := by
  refine ⟨?_, ?_, ?_, ?_⟩
  · intro m c q h
    exact completeQuest_of_none q h
  · intro m c q p hp
    by_cases hq : q ∈ p.completedQuests
    · rw [completeQuest_of_mem hp hq]
      exact ⟨rfl, p, hp, by rw [if_pos hq]⟩
    · rw [completeQuest_of_new hp hq]
      refine ⟨rfl, _, mget_mset_self _ _ _, ?_⟩
      rw [if_neg hq]
  · intro m c q p hp hnd
    by_cases hq : q ∈ p.completedQuests
    · rw [completeQuest_of_mem hp hq, completeQuest_of_mem hp hq]
      exact ⟨rfl, rfl, p, hp, List.count_eq_one_of_mem hnd hq⟩
    · rw [completeQuest_of_new hp hq]
      have hp1 : mget ({ m with players := mset m.players c { p with completedQuests := p.completedQuests ++ [q] } } : PlayerManager).players c = some { p with completedQuests := p.completedQuests ++ [q] } :=
        mget_mset_self _ _ _
      have hq1 : q ∈ ({ p with completedQuests :=
          p.completedQuests ++ [q] } :
            PlayerWithSocket).completedQuests := by
        simp
      rw [completeQuest_of_mem hp1 hq1]
      refine ⟨rfl, rfl, _, hp1, ?_⟩
      simp [List.count_append, List.count_eq_zero_of_not_mem hq]
  · intro trace s p hp
    exact (state_run trace).2 s p hp

theorem c6_witness :
    (completeQuest mgrAnn "A" "q1").1 = true ∧
    ∃ p2, mget (completeQuest mgrAnn "A" "q1").2.players "A" = some p2 ∧
      p2.completedQuests =
        (if "q1" ∈ annPlayer.completedQuests then
          annPlayer.completedQuests
         else annPlayer.completedQuests ++ ["q1"]) :=
  c6_quest_idempotence.2.1 mgrAnn "A" "q1" annPlayer (by decide)

/-- Claim C7: remove contract — `removePlayer` returns the stored
player and deletes the player record and the rate-limit record, clears
the team-index entry for the player's team only when it still points at
this connection (entries pointing at another connection survive), and a
remove with no stored player — in particular a second remove — is a
no-op returning none. -/
theorem c7_remove_contract :
    (∀ (m : PlayerManager) (c : String), mget m.players c = none →
      removePlayer m c = (none, m)) ∧
    (∀ (m : PlayerManager) (c : String) (p : PlayerWithSocket),
      mget m.players c = some p →
      (removePlayer m c).1 = some p ∧
      mget (removePlayer m c).2.players c = none ∧
      mget (removePlayer m c).2.lastMoveTime c = none ∧
      (mget m.activeTeams p.color = some c →
        mget (removePlayer m c).2.activeTeams p.color = none) ∧
      (∀ t s, mget m.activeTeams t = some s → s ≠ c →
        mget (removePlayer m c).2.activeTeams t = some s) ∧
      removePlayer (removePlayer m c).2 c =
        (none, (removePlayer m c).2)) := by
  constructor
  · intro m c h
    exact removePlayer_of_none h
  · intro m c p hp
    refine ⟨?_, removePlayer_players_self m c, ?_, ?_, ?_,
      removePlayer_twice m c⟩
    · rw [removePlayer_fst, hp]
    · rw [removePlayer_of_some hp]
      exact mget_mdel_self _ _
    · intro hidx
      rw [removePlayer_of_some hp]
      dsimp only
      rw [if_pos hidx]
      exact mget_mdel_self _ _
    · intro t s hts hs
      exact removePlayer_activeTeams_stable m c t s hs hts

theorem c7_witness :
    (removePlayer mgrAnn "A").1 = some annPlayer ∧
    mget (removePlayer mgrAnn "A").2.players "A" = none ∧
    mget (removePlayer mgrAnn "A").2.lastMoveTime "A" = none ∧
    (mget mgrAnn.activeTeams annPlayer.color = some "A" →
      mget (removePlayer mgrAnn "A").2.activeTeams annPlayer.color =
        none) ∧
    (∀ t s, mget mgrAnn.activeTeams t = some s → s ≠ "A" →
      mget (removePlayer mgrAnn "A").2.activeTeams t = some s) ∧
    removePlayer (removePlayer mgrAnn "A").2 "A" =
      (none, (removePlayer mgrAnn "A").2) :=
  c7_remove_contract.2 mgrAnn "A" annPlayer (by decide)

/-- Claim C4: updatePosition contract — the call fails closed (returns
false, leaving the player table, stored position, and rate-limit record
unchanged) exactly when the connection has no stored player, or fewer
than `MOVE_RATE_LIMIT_MS` ms have elapsed since the recorded last
accepted move (an absent record reads as 0), or the position is
invalid; on success it stores the new position, records the new
last-accepted timestamp, and returns true — and since a rejection
mutates nothing, a second valid move at least 50 ms after an accepted
one is accepted as well. -/
theorem c4_updatePosition_contract (m : PlayerManager) (c : String)
    (d : PlayerMoveEvent) (now : Nat) :
    ((updatePosition m c d now).1 = false ↔
      mget m.players c = none ∨
      now - (mget m.lastMoveTime c).getD 0 < MOVE_RATE_LIMIT_MS ∨
      isValidPosition d.x d.y = false) ∧
    ((updatePosition m c d now).1 = false →
      (updatePosition m c d now).2 = m) ∧
    ((updatePosition m c d now).1 = true →
      ∃ p, mget m.players c = some p ∧
        (updatePosition m c d now).2.players =
          mset m.players c { p with x := d.x, y := d.y } ∧
        (updatePosition m c d now).2.lastMoveTime =
          mset m.lastMoveTime c now ∧
        (updatePosition m c d now).2.activeTeams = m.activeTeams) ∧
    (∀ (d2 : PlayerMoveEvent) (now2 : Nat),
      (updatePosition m c d now).1 = true →
      now + MOVE_RATE_LIMIT_MS ≤ now2 →
      isValidPosition d2.x d2.y = true →
      (updatePosition (updatePosition m c d now).2 c d2 now2).1 =
        true) := by
  refine ⟨⟨?_, ?_⟩, ?_, ?_, ?_⟩
  · intro hfalse
    by_contra hcon
    push_neg at hcon
    obtain ⟨h1, h2, h3⟩ := hcon
    rcases Option.eq_none_or_eq_some (mget m.players c) with h0 | ⟨p, hp⟩
    · exact h1 h0
    · have hval : isValidPosition d.x d.y = true := by
        cases hb : isValidPosition d.x d.y
        · exact absurd hb h3
        · rfl
      rw [updatePosition_of_ok hp (Nat.not_lt.mpr h2) hval] at hfalse
      exact absurd hfalse (by simp)
  · intro hdis
    rcases hdis with h0 | hrate | hoob
    · rw [updatePosition_of_no_player d now h0]
    · rcases Option.eq_none_or_eq_some (mget m.players c) with
        h0 | ⟨p, hp⟩
      · rw [updatePosition_of_no_player d now h0]
      · rw [updatePosition_of_rate d now hp hrate]
    · rcases Option.eq_none_or_eq_some (mget m.players c) with
        h0 | ⟨p, hp⟩
      · rw [updatePosition_of_no_player d now h0]
      · by_cases hrate : now - (mget m.lastMoveTime c).getD 0 <
            MOVE_RATE_LIMIT_MS
        · rw [updatePosition_of_rate d now hp hrate]
        · rw [updatePosition_of_oob hp hrate hoob]
  · intro h
    exact updatePosition_false_state h
  · intro h
    obtain ⟨p, hp, _, _, hstate⟩ := updatePosition_true_state h
    exact ⟨p, hp, by rw [hstate], by rw [hstate], by rw [hstate]⟩
  · intro d2 now2 h hge hv2
    obtain ⟨p, hp, hr, hv, hstate⟩ := updatePosition_true_state h
    rw [hstate]
    have hp2 : mget ({ m with players := mset m.players c { p with x := d.x, y := d.y }, lastMoveTime := mset m.lastMoveTime c now } : PlayerManager).players c = some { p with x := d.x, y := d.y } :=
      mget_mset_self _ _ _
    have hr2 : ¬ now2 - (mget ({ m with players := mset m.players c { p with x := d.x, y := d.y }, lastMoveTime := mset m.lastMoveTime c now } : PlayerManager).lastMoveTime c).getD 0 < MOVE_RATE_LIMIT_MS := by
      show ¬ now2 - (mget (mset m.lastMoveTime c now) c).getD 0 <
        MOVE_RATE_LIMIT_MS
      rw [mget_mset_self]
      simp only [Option.getD_some, MOVE_RATE_LIMIT_MS]
      simp only [MOVE_RATE_LIMIT_MS] at hge
      omega
    rw [updatePosition_of_ok hp2 hr2 hv2]

theorem c4_witness :
    ∃ p, mget mgrAnn.players "A" = some p ∧
      (updatePosition mgrAnn "A" moveU1 100).2.players =
        mset mgrAnn.players "A" { p with x := moveU1.x, y := moveU1.y } ∧
      (updatePosition mgrAnn "A" moveU1 100).2.lastMoveTime =
        mset mgrAnn.lastMoveTime "A" 100 ∧
      (updatePosition mgrAnn "A" moveU1 100).2.activeTeams =
        mgrAnn.activeTeams :=
  (c4_updatePosition_contract mgrAnn "A" moveU1 100).2.2.1 (by decide)

/-- Claim C2: eviction correctness — if connection `A` holds team `T`
(stored player with that team, and the index maps the team to `A`) and
connection `B` processes a valid join with team `T`, then afterwards
`A`'s record is absent, `B`'s record exists with team `T`, and every
remaining connection received a `player:left` event carrying `A`'s
stored `odUserId`. -/
theorem c2_eviction_correctness (w : World) (now : Nat)
    (A B team : String) (pA : PlayerWithSocket) (d : JValue)
    (hAB : A ≠ B) (hAne : A ≠ "") (hAconn : A ∈ w.connected)
    (hBconn : B ∈ w.connected)
    (hpA : mget w.manager.players A = some pA) (_hteam : pA.color = team)
    (hidx : mget w.manager.activeTeams team = some A)
    (hval : (validatePlayerData d).valid = true)
    (hcolor : (parseJoinInput d).color = team) :
    mget (step w (now, .join B d)).1.manager.players A = none ∧
    (∃ pB, mget (step w (now, .join B d)).1.manager.players B = some pB ∧
      pB.color = team) ∧
    (∀ c ∈ (step w (now, .join B d)).1.connected,
      ∃ e ∈ (step w (now, .join B d)).2,
        e.event = OutEvent.playerLeft pA.odUserId ∧ c ∈ e.recipients) := by
  have hex : getActiveTeamSocket w.manager (parseJoinInput d).color =
      some A := by
    rw [hcolor]
    exact getActiveTeamSocket_ne_none hidx hAne
  have hred : step w (now, .join B d) = stepJoin now w B d := by
    simp [step, hBconn]
  rw [hred, stepJoin_valid_kick hval hex hAB hAconn hpA]
  refine ⟨?_, ?_, ?_⟩
  · show mget (addPlayer (removePlayer w.manager A).2 B
        (parseJoinInput d) now).2.players A = none
    simp only [addPlayer]
    rw [mget_mset_ne _ _ _ _ hAB]
    exact removePlayer_players_self _ _
  · refine ⟨(addPlayer (removePlayer w.manager A).2 B
        (parseJoinInput d) now).1, ?_, hcolor⟩
    show mget (addPlayer (removePlayer w.manager A).2 B
        (parseJoinInput d) now).2.players B = some _
    simp only [addPlayer]
    exact mget_mset_self _ _ _
  · intro c hc
    refine ⟨⟨w.connected, .playerLeft pA.odUserId⟩,
      List.mem_cons_of_mem _ (List.mem_cons_self _ _), rfl, ?_⟩
    exact List.mem_of_mem_filter hc

theorem c2_witness :
    mget (step (run traceAnnBob)
      (3, Event.join "B" bobJoinRed)).1.manager.players "A" = none :=
  (c2_eviction_correctness (run traceAnnBob) 3 "A" "B" "#ef4444"
    annPlayer bobJoinRed (by decide) (by decide) (by decide) (by decide)
    (by decide) (by decide) (by decide) (by decide) (by decide)).1

/-- Claim C10: on every accepted move, the `player:moved` broadcast
carries the payload's `odUserId` verbatim, while the record actually
updated is the sending connection's own stored player; every other
connection's record — in particular one whose stored `odUserId` equals
the payload's — is untouched. -/
theorem c10_move_identity_trust (now : Nat) (w : World) (sid : String)
    (data : JValue) (hmem : sid ∈ w.connected)
    (hval : (validateMoveData data).valid = true)
    (hacc : (updatePosition w.manager sid (parseMoveEvent data) now).1 =
      true) :
    (step w (now, .move sid data)).2 =
      [⟨w.connected.filter (fun c => c ≠ sid),
        .playerMoved (data.getField "odUserId").asStr
          (data.getField "x").asNum (data.getField "y").asNum⟩] ∧
    (∃ p, mget w.manager.players sid = some p ∧
      mget (step w (now, .move sid data)).1.manager.players sid =
        some { p with x := (data.getField "x").asNum,
                      y := (data.getField "y").asNum }) ∧
    (∀ s, s ≠ sid →
      mget (step w (now, .move sid data)).1.manager.players s =
        mget w.manager.players s) := by
  have hred : step w (now, .move sid data) = stepMove now w sid data := by
    simp [step, hmem]
  rw [hred, stepMove_accepted hval hacc]
  obtain ⟨p, hp, _, _, hstate⟩ := updatePosition_true_state hacc
  refine ⟨rfl, ⟨p, hp, ?_⟩, ?_⟩
  · show mget (updatePosition w.manager sid
        (parseMoveEvent data) now).2.players sid = _
    rw [hstate]
    exact mget_mset_self _ _ _
  · intro s hs
    show mget (updatePosition w.manager sid
        (parseMoveEvent data) now).2.players s = _
    rw [hstate]
    exact mget_mset_ne _ _ _ _ hs

theorem c10_witness :
    (step (run traceTwoTeams) (100, Event.move "B" moveAsAnn)).2 =
      [⟨(run traceTwoTeams).connected.filter (fun c => c ≠ "B"),
        OutEvent.playerMoved "u1" (JNum.fin 500) (JNum.fin 500)⟩] :=
  (c10_move_identity_trust 100 (run traceTwoTeams) "B" moveAsAnn
    (by decide) (by decide) (by decide)).1

/-- Claim C9, counterexample: a `quest:complete` payload whose
`odUserId` is the empty string — not a non-empty string — is processed
rather than ignored: the sender's player gains the quest and the
`quest:completed` broadcast goes out. -/
theorem c9_counterexample :
    (mget (step (run traceAnn)
        (60, .quest "A" emptyUidQuest)).1.manager.players "A").map
      PlayerWithSocket.completedQuests = some ["q1"] ∧
    (step (run traceAnn) (60, .quest "A" emptyUidQuest)).2 =
      [⟨["A"], .questCompleted "" "q1"⟩] := by
  decide

/-- Claim C9, amended: a `quest:complete` payload in which `odUserId`
or `odQuestId` is not a string (or the payload is not an object) is
ignored — the world is unchanged and nothing is emitted; empty strings
pass the check, since only `typeof === 'string'` is tested. -/
theorem c9_quest_shape_validation (w : World) (sid : String) (now : Nat)
    (data : JValue)
    (h : data.isTruthyObject = false ∨
      (data.getField "odUserId").isStr = false ∨
      (data.getField "odQuestId").isStr = false) :
    step w (now, .quest sid data) = (w, []) := by
  by_cases hmem : sid ∈ w.connected
  · simp only [step, if_pos hmem]
    exact stepQuest_bad_shape h
  · simp only [step, if_neg hmem]

theorem c9_witness :
    step (run traceAnn) (60, Event.quest "A" badQuestPayload) =
      ((run traceAnn), []) :=
  c9_quest_shape_validation (run traceAnn) "A" 60 badQuestPayload
    (Or.inr (Or.inl (by decide)))

/-- Claim C5: bounds invariant — every stored player's coordinates lie
in `[0,2000] × [0,2000]` after every operation; a move whose payload
coordinates are not finite numbers in range leaves the player table
unchanged and emits no `player:moved` broadcast; and a join whose
payload coordinates are not finite numbers in range creates no
player. -/
theorem c5_bounds_invariant :
    (∀ (trace : List (Nat × Event)) (s : String) (p : PlayerWithSocket),
      mget (run trace).manager.players s = some p →
      JNum.jge p.x CANVAS_MIN = true ∧ JNum.jle p.x CANVAS_MAX_X = true ∧
      JNum.jge p.y CANVAS_MIN = true ∧
        JNum.jle p.y CANVAS_MAX_Y = true) ∧
    (∀ (w : World) (sid : String) (now : Nat) (data : JValue),
      (specFiniteInRange (data.getField "x").asNum &&
        specFiniteInRange (data.getField "y").asNum) = false →
      (step w (now, .move sid data)).1.manager.players =
        w.manager.players ∧
      ∀ e ∈ (step w (now, .move sid data)).2, ∀ uid x y,
        e.event ≠ OutEvent.playerMoved uid x y) ∧
    (∀ (w : World) (sid : String) (now : Nat) (data : JValue),
      (specFiniteInRange (data.getField "x").asNum &&
        specFiniteInRange (data.getField "y").asNum) = false →
      (step w (now, .join sid data)).1.manager.players =
        w.manager.players) := by
  refine ⟨?_, ?_, ?_⟩
  · intro trace s p hp
    have h := (state_run trace).1 s p hp
    rw [isValidPosition] at h
    simp only [Bool.and_eq_true] at h
    exact ⟨h.1.1.1.1.1, h.1.1.1.1.2, h.1.1.1.2, h.1.1.2⟩
  · intro w sid now data hfin
    have hpos : isValidPosition (data.getField "x").asNum
        (data.getField "y").asNum = false := by
      rw [isValidPosition_eq_finite]
      exact hfin
    by_cases hmem : sid ∈ w.connected
    · have hval : (validateMoveData data).valid = false := by
        cases hb : (validateMoveData data).valid
        · rfl
        · have := validateMoveData_position hb
          rw [hpos] at this
          exact absurd this (by simp)
      simp only [step, if_pos hmem]
      rw [stepMove_invalid hval]
      refine ⟨by simp, ?_⟩
      intro e he uid x y
      simp at he
    · simp only [step, if_neg hmem]
      refine ⟨by simp, ?_⟩
      intro e he uid x y
      simp at he
  · intro w sid now data hfin
    have hpos : isValidPosition (data.getField "x").asNum
        (data.getField "y").asNum = false := by
      rw [isValidPosition_eq_finite]
      exact hfin
    by_cases hmem : sid ∈ w.connected
    · have hval : (validatePlayerData data).valid = false := by
        cases hb : (validatePlayerData data).valid
        · rfl
        · have := validatePlayerData_position hb
          rw [hpos] at this
          exact absurd this (by simp)
      simp only [step, if_pos hmem]
      rw [stepJoin_invalid hval]
    · simp only [step, if_neg hmem]

theorem c5_witness :
    (step (run traceAnn)
        (100, Event.move "A" oobMovePayload)).1.manager.players =
      (run traceAnn).manager.players ∧
    ∀ e ∈ (step (run traceAnn) (100, Event.move "A" oobMovePayload)).2,
      ∀ uid x y, e.event ≠ OutEvent.playerMoved uid x y :=
  c5_bounds_invariant.2.1 (run traceAnn) "A" 100 oobMovePayload
    (by decide)

/-- Claim C8: join validation order — on every object payload the
source's `validatePlayerData` coincides with the spec's rules checked
in the spec's order (userId non-empty string; username non-empty
string; x,y finite numbers within `[0,2000]`; shape in the fixed shape
set; team in the fixed color set), first failure determining the
reported error; and every payload that fails validation makes the join
emit a single error event to the sender only, with no state mutation. -/
theorem c8_join_validation_order :
    (∀ fs : List (String × JValue),
      validatePlayerData (.obj fs) = specJoinValidate (.obj fs)) ∧
    (∀ (w : World) (sid : String) (now : Nat) (data : JValue),
      sid ∈ w.connected → (validatePlayerData data).valid = false →
      step w (now, .join sid data) =
        (w, [⟨[sid], .errorMsg ((validatePlayerData data).error.getD
          "Invalid player data")⟩])) := by
  refine ⟨validate_eq_spec, ?_⟩
  intro w sid now data hmem hval
  simp only [step, if_pos hmem]
  exact stepJoin_invalid hval

theorem c8_witness :
    step (run traceAnn) (5, Event.join "A" (JValue.str "oops")) =
      ((run traceAnn),
       [⟨["A"], OutEvent.errorMsg
         ((validatePlayerData (JValue.str "oops")).error.getD
           "Invalid player data")⟩]) :=
  c8_join_validation_order.2 (run traceAnn) "A" 5 (JValue.str "oops")
    (by decide) (by decide)

end PresenceCore
